import Mathlib

/-!
# Verification of the fixed-record library system

Shallow embedding of the core of the `Final-project-Python-file-i-o-`
repository (`src/libsys/system.py`, `src/library_system/*.py`): the
fixed-record binary codec, the file store, the identifier generator, the
schema migrator, and the borrow/return/ban policy engine.

Modelling conventions:
* Python `bytes` are modelled as `List Nat` (each entry a byte value).
* Python `str` is modelled as `List Nat` of Unicode scalar values.
* `str.encode('utf-8')` / `bytes.decode('utf-8')` are modelled by a full
  UTF-8 encoder and a validating decoder (`utf8Encode` / `utf8Decode`);
  the decoder returns `Option` where Python raises `UnicodeDecodeError`.
* Files are modelled as byte lists for the store-level claims, and as
  lists of unpacked records for the policy-level claims (Python unpacks a
  record immediately after every read and repacks it before every write).
* `datetime.date` is modelled by `PyDate` with Gregorian ordinal
  conversions ported from CPython's `_ymd2ord` / `_ord2ymd`.
-/

namespace LibSys

/-- Python `bytes` value: a list of byte values. -/
abbrev Bytes := List Nat

/-- Python `str` value: a list of Unicode scalar values. -/
abbrev Str := List Nat

/-- A Unicode scalar value Python can UTF-8-encode (no surrogates). -/
def ValidScalar (c : Nat) : Prop := c < 0xD800 ∨ (0xE000 ≤ c ∧ c < 0x110000)

instance (c : Nat) : Decidable (ValidScalar c) := by
  unfold ValidScalar; infer_instance

/-- UTF-8 encoding of one scalar value (`str.encode('utf-8')`, per char). -/
def utf8EncodeChar (c : Nat) : Bytes :=
  if c < 0x80 then [c]
  else if c < 0x800 then [0xC0 + c / 64, 0x80 + c % 64]
  else if c < 0x10000 then [0xE0 + c / 4096, 0x80 + c / 64 % 64, 0x80 + c % 64]
  else [0xF0 + c / 262144, 0x80 + c / 4096 % 64, 0x80 + c / 64 % 64, 0x80 + c % 64]

/-- UTF-8 encoding of a whole string (`str.encode('utf-8')`). -/
def utf8Encode (s : Str) : Bytes := (s.map utf8EncodeChar).flatten

/-- Is `b` a UTF-8 continuation byte (`0x80..0xBF`)? -/
def isCont (b : Nat) : Bool := 0x80 ≤ b && b < 0xC0

/-- Decode one UTF-8 scalar from the front of a byte list, returning the
scalar and the remaining bytes.  `none` where Python raises
`UnicodeDecodeError` (stray continuation bytes, truncated sequences,
overlong forms, surrogates, values past U+10FFFF). -/
def utf8DecodeOne : Bytes → Option (Nat × Bytes)
  | [] => none
  | b0 :: rest =>
    if b0 < 0x80 then some (b0, rest)
    else if b0 < 0xC0 then none
    else if b0 < 0xE0 then
      match rest with
      | b1 :: rest1 =>
        if isCont b1 then
          let c := (b0 - 0xC0) * 64 + (b1 - 0x80)
          if 0x80 ≤ c then some (c, rest1) else none
        else none
      | [] => none
    else if b0 < 0xF0 then
      match rest with
      | b1 :: b2 :: rest2 =>
        if isCont b1 && isCont b2 then
          let c := (b0 - 0xE0) * 4096 + (b1 - 0x80) * 64 + (b2 - 0x80)
          if 0x800 ≤ c ∧ ¬(0xD800 ≤ c ∧ c < 0xE000) then some (c, rest2)
          else none
        else none
      | _ => none
    else if b0 < 0xF5 then
      match rest with
      | b1 :: b2 :: b3 :: rest3 =>
        if isCont b1 && isCont b2 && isCont b3 then
          let c := (b0 - 0xF0) * 262144 + (b1 - 0x80) * 4096 +
                   (b2 - 0x80) * 64 + (b3 - 0x80)
          if 0x10000 ≤ c ∧ c < 0x110000 then some (c, rest3) else none
        else none
      | _ => none
    else none

theorem utf8DecodeOne_length_lt {bs rest : Bytes} {c : Nat}
    (h : utf8DecodeOne bs = some (c, rest)) : rest.length < bs.length := by
  match bs with
  | [] => simp [utf8DecodeOne] at h
  | b0 :: r =>
    simp only [utf8DecodeOne] at h
    repeat' split at h
    all_goals simp only [Option.some.injEq, Prod.mk.injEq,
      reduceCtorEq] at h
    all_goals obtain ⟨h1, h2⟩ := h
    all_goals subst h2
    all_goals simp_all [List.length_cons]
    all_goals omega

/-- Fuel-driven loop of the validating UTF-8 decoder; the fuel bounds the
number of scalars and is always instantiated with the byte count. -/
def utf8DecodeAux : Nat → Bytes → Option Str
  | _, [] => some []
  | 0, _ :: _ => none
  | fuel + 1, b :: bs =>
    match utf8DecodeOne (b :: bs) with
    | none => none
    | some (c, rest) => (utf8DecodeAux fuel rest).map (c :: ·)

/-- Validating UTF-8 decoder (`bytes.decode('utf-8')`): repeatedly decode
one scalar; empty input decodes to the empty string. -/
def utf8Decode (bs : Bytes) : Option Str := utf8DecodeAux bs.length bs

theorem utf8DecodeAux_congr :
    ∀ (f1 f2 : Nat) (bs : Bytes), bs.length ≤ f1 → bs.length ≤ f2 →
      utf8DecodeAux f1 bs = utf8DecodeAux f2 bs := by
  intro f1
  induction f1 with
  | zero =>
    intro f2 bs h1 h2
    have : bs = [] := List.eq_nil_of_length_eq_zero (Nat.le_zero.mp h1)
    subst this
    cases f2 <;> rfl
  | succ n ih =>
    intro f2 bs h1 h2
    match bs with
    | [] => cases f2 <;> rfl
    | b :: r =>
      match f2 with
      | 0 => simp at h2
      | g + 1 =>
        show (match utf8DecodeOne (b :: r) with
          | none => none
          | some (c, rest) => (utf8DecodeAux n rest).map (c :: ·)) =
          (match utf8DecodeOne (b :: r) with
          | none => none
          | some (c, rest) => (utf8DecodeAux g rest).map (c :: ·))
        cases hd : utf8DecodeOne (b :: r) with
        | none => rfl
        | some cr =>
          obtain ⟨c, rest⟩ := cr
          have hlt := utf8DecodeOne_length_lt hd
          simp only [List.length_cons] at hlt h1 h2
          show (utf8DecodeAux n rest).map (c :: ·) = (utf8DecodeAux g rest).map (c :: ·)
          rw [ih g rest (by omega) (by omega)]

theorem utf8Decode_nil : utf8Decode [] = some [] := rfl

theorem utf8DecodeOne_encodeChar (c : Nat) (h : ValidScalar c) (rest : Bytes) :
    utf8DecodeOne (utf8EncodeChar c ++ rest) = some (c, rest) := by
  rcases h with h | h
  · by_cases h1 : c < 0x80
    · simp [utf8EncodeChar, if_pos h1, utf8DecodeOne, h1]
    · by_cases h2 : c < 0x800
      · have e0 : ¬ (0xC0 + c / 64 < 0x80) := by omega
        have e1 : ¬ (0xC0 + c / 64 < 0xC0) := by omega
        have e2 : 0xC0 + c / 64 < 0xE0 := by omega
        have e3 : isCont (0x80 + c % 64) = true := by
          simp only [isCont, Bool.and_eq_true, decide_eq_true_eq]; omega
        simp only [utf8EncodeChar, if_neg h1, if_pos h2, List.cons_append,
          List.nil_append, utf8DecodeOne, if_neg e0, if_neg e1, if_pos e2, e3,
          if_true]
        have hv : (0xC0 + c / 64 - 0xC0) * 64 + (0x80 + c % 64 - 0x80) = c := by
          omega
        simp only [hv]
        have hc : 0x80 ≤ c := by omega
        simp [hc]
      · have h3 : c < 0x10000 := by omega
        have e0 : ¬ (0xE0 + c / 4096 < 0x80) := by omega
        have e1 : ¬ (0xE0 + c / 4096 < 0xC0) := by omega
        have e2 : ¬ (0xE0 + c / 4096 < 0xE0) := by omega
        have e3 : 0xE0 + c / 4096 < 0xF0 := by
          have : c / 4096 < 16 := by omega
          omega
        have e4 : isCont (0x80 + c / 64 % 64) = true := by
          simp only [isCont, Bool.and_eq_true, decide_eq_true_eq]; omega
        have e5 : isCont (0x80 + c % 64) = true := by
          simp only [isCont, Bool.and_eq_true, decide_eq_true_eq]; omega
        simp only [utf8EncodeChar, if_neg h1, if_neg h2, if_pos h3,
          List.cons_append, List.nil_append, utf8DecodeOne, if_neg e0,
          if_neg e1, if_neg e2, if_pos e3, e4, e5, Bool.and_self, if_true]
        have hv : (0xE0 + c / 4096 - 0xE0) * 4096 + (0x80 + c / 64 % 64 - 0x80) * 64 +
            (0x80 + c % 64 - 0x80) = c := by omega
        simp only [hv]
        have hc : 0x800 ≤ c ∧ ¬(0xD800 ≤ c ∧ c < 0xE000) := by omega
        simp [hc.1, hc.2]
  · by_cases h3 : c < 0x10000
    · have h1 : ¬ c < 0x80 := by omega
      have h2 : ¬ c < 0x800 := by omega
      have e0 : ¬ (0xE0 + c / 4096 < 0x80) := by omega
      have e1 : ¬ (0xE0 + c / 4096 < 0xC0) := by omega
      have e2 : ¬ (0xE0 + c / 4096 < 0xE0) := by omega
      have e3 : 0xE0 + c / 4096 < 0xF0 := by
        have : c / 4096 < 16 := by omega
        omega
      have e4 : isCont (0x80 + c / 64 % 64) = true := by
        simp only [isCont, Bool.and_eq_true, decide_eq_true_eq]; omega
      have e5 : isCont (0x80 + c % 64) = true := by
        simp only [isCont, Bool.and_eq_true, decide_eq_true_eq]; omega
      simp only [utf8EncodeChar, if_neg h1, if_neg h2, if_pos h3,
        List.cons_append, List.nil_append, utf8DecodeOne, if_neg e0,
        if_neg e1, if_neg e2, if_pos e3, e4, e5, Bool.and_self, if_true]
      have hv : (0xE0 + c / 4096 - 0xE0) * 4096 + (0x80 + c / 64 % 64 - 0x80) * 64 +
          (0x80 + c % 64 - 0x80) = c := by omega
      simp only [hv]
      have hc : 0x800 ≤ c ∧ ¬(0xD800 ≤ c ∧ c < 0xE000) := by omega
      simp [hc.1, hc.2]
    · have h1 : ¬ c < 0x80 := by omega
      have h2 : ¬ c < 0x800 := by omega
      have e0 : ¬ (0xF0 + c / 262144 < 0x80) := by omega
      have e1 : ¬ (0xF0 + c / 262144 < 0xC0) := by omega
      have e2 : ¬ (0xF0 + c / 262144 < 0xE0) := by omega
      have e3 : ¬ (0xF0 + c / 262144 < 0xF0) := by omega
      have e4 : 0xF0 + c / 262144 < 0xF5 := by
        have : c / 262144 < 5 := by omega
        omega
      have e5 : isCont (0x80 + c / 4096 % 64) = true := by
        simp only [isCont, Bool.and_eq_true, decide_eq_true_eq]; omega
      have e6 : isCont (0x80 + c / 64 % 64) = true := by
        simp only [isCont, Bool.and_eq_true, decide_eq_true_eq]; omega
      have e7 : isCont (0x80 + c % 64) = true := by
        simp only [isCont, Bool.and_eq_true, decide_eq_true_eq]; omega
      simp only [utf8EncodeChar, if_neg h1, if_neg h2, if_neg h3,
        List.cons_append, List.nil_append, utf8DecodeOne, if_neg e0,
        if_neg e1, if_neg e2, if_neg e3, if_pos e4, e5, e6, e7,
        Bool.and_self, if_true]
      have hv : (0xF0 + c / 262144 - 0xF0) * 262144 +
          (0x80 + c / 4096 % 64 - 0x80) * 4096 +
          (0x80 + c / 64 % 64 - 0x80) * 64 + (0x80 + c % 64 - 0x80) = c := by
        omega
      simp only [hv]
      have hc : 0x10000 ≤ c ∧ c < 0x110000 := by omega
      simp [hc.1, hc.2]

/-- `utf8Decode` unfolded one step. -/
theorem utf8Decode_cons (b : Nat) (r : Bytes) :
    utf8Decode (b :: r) =
      match utf8DecodeOne (b :: r) with
      | none => none
      | some (c, rest) => (utf8Decode rest).map (c :: ·) := by
  show utf8DecodeAux (r.length + 1) (b :: r) = _
  show (match utf8DecodeOne (b :: r) with
    | none => none
    | some (c, rest) => (utf8DecodeAux r.length rest).map (c :: ·)) = _
  cases hd : utf8DecodeOne (b :: r) with
  | none => rfl
  | some cr =>
    obtain ⟨c, rest⟩ := cr
    have hlt := utf8DecodeOne_length_lt hd
    simp only [List.length_cons] at hlt
    show (utf8DecodeAux r.length rest).map (c :: ·) = (utf8Decode rest).map (c :: ·)
    rw [utf8DecodeAux_congr r.length rest.length rest (by omega) le_rfl]
    rfl

/-- `utf8Decode` unfolded at a successful first character. -/
theorem utf8Decode_of_one_some {bs rest : Bytes} {c : Nat}
    (h : utf8DecodeOne bs = some (c, rest)) :
    utf8Decode bs = (utf8Decode rest).map (c :: ·) := by
  match bs with
  | [] => simp [utf8DecodeOne] at h
  | b :: r =>
    rw [utf8Decode_cons, h]

theorem utf8Decode_encodeChar_append (c : Nat) (h : ValidScalar c) (rest : Bytes) :
    utf8Decode (utf8EncodeChar c ++ rest) = (utf8Decode rest).map (c :: ·) :=
  utf8Decode_of_one_some (utf8DecodeOne_encodeChar c h rest)

/-- All scalar values of a string are encodable. -/
def ValidStr (s : Str) : Prop := ∀ c ∈ s, ValidScalar c

instance (s : Str) : Decidable (ValidStr s) := by
  unfold ValidStr; infer_instance

theorem utf8Decode_encode_append (s : Str) (hs : ValidStr s) (rest : Bytes) :
    utf8Decode (utf8Encode s ++ rest) = (utf8Decode rest).map (s ++ ·) := by
  induction s with
  | nil => simp [utf8Encode]
  | cons c cs ih =>
    have hc : ValidScalar c := hs c (List.mem_cons_self c cs)
    have hcs : ValidStr cs := fun d hd => hs d (List.mem_cons_of_mem c hd)
    simp only [utf8Encode, List.map_cons, List.flatten_cons, List.append_assoc]
    rw [utf8Decode_encodeChar_append c hc]
    rw [show (cs.map utf8EncodeChar).flatten = utf8Encode cs from rfl]
    rw [ih hcs]
    cases utf8Decode rest <;> simp

theorem utf8Decode_replicate_zero (k : Nat) :
    utf8Decode (List.replicate k 0) = some (List.replicate k 0) := by
  induction k with
  | zero => simp [utf8Decode_nil]
  | succ n ih =>
    rw [List.replicate_succ]
    have h0 : utf8DecodeOne (0 :: List.replicate n 0) = some (0, List.replicate n 0) := by
      simp [utf8DecodeOne]
    rw [utf8Decode_of_one_some h0, ih]
    rfl

/-! ## The string field codec

`LibrarySystem._encode_string` / `_decode_string` (src/libsys/system.py,
lines 129-133) and the identical `encode_string` / `decode_string`
(src/library_system/utils.py, lines 7-13):

```python
def _encode_string(self, text, length): return text.encode('utf-8')[:length].ljust(length, b'\\x00')
def _decode_string(self, data):         return data.decode('utf-8').rstrip('\\x00')
```
-/

/-- Python `bytes.ljust(length, fill)`: right-pad (never truncates). -/
def pyLjust (bs : Bytes) (w : Nat) (fill : Nat) : Bytes :=
  bs ++ List.replicate (w - bs.length) fill

/-- `_encode_string(text, length)`: UTF-8 encode, truncate to `length`
bytes, right-pad with NUL bytes. -/
def encodeString (s : Str) (w : Nat) : Bytes :=
  pyLjust ((utf8Encode s).take w) w 0

/-- Python `str.rstrip('\x00')`: drop trailing NUL characters. -/
def rstripNul (s : Str) : Str := (s.reverse.dropWhile (· == 0)).reverse

/-- Python `str.lstrip('\x00')`: drop leading NUL characters. -/
def lstripNul (s : Str) : Str := s.dropWhile (· == 0)

/-- Python `str.strip('\x00')`: drop NUL characters on both ends. -/
def stripNul (s : Str) : Str := lstripNul (rstripNul s)

/-- `_decode_string(data)`: UTF-8 decode then strip trailing NULs.
`none` models Python raising `UnicodeDecodeError`. -/
def decodeString (bs : Bytes) : Option Str := (utf8Decode bs).map rstripNul

/-- Total version of `_decode_string` used inside record operations.
Python would raise on invalid UTF-8; every field these operations are
evaluated on in this development is a valid encoding, so the default is
never reached in any theorem below. -/
def decodeStr (bs : Bytes) : Str := (decodeString bs).getD []

theorem dropWhile_replicate_zero_append (k : Nat) (l : Str) :
    List.dropWhile (· == 0) (List.replicate k 0 ++ l) =
      List.dropWhile (· == 0) l := by
  induction k with
  | zero => rfl
  | succ n ih => simp [List.replicate_succ, List.dropWhile, ih]

theorem rstripNul_append_replicate (s : Str) (k : Nat) :
    rstripNul (s ++ List.replicate k 0) = rstripNul s := by
  simp only [rstripNul, List.reverse_append, List.reverse_replicate]
  rw [dropWhile_replicate_zero_append]

/-- Round trip of the string field codec: on a string whose UTF-8 form
fits in the field, decode of encode returns the string trimmed of its
trailing NUL characters. -/
theorem decodeString_encodeString (s : Str) (w : Nat) (hs : ValidStr s)
    (hw : (utf8Encode s).length ≤ w) :
    decodeString (encodeString s w) = some (rstripNul s) := by
  unfold decodeString encodeString pyLjust
  rw [List.take_of_length_le hw]
  rw [utf8Decode_encode_append s hs]
  rw [utf8Decode_replicate_zero]
  simp [rstripNul_append_replicate]

set_option maxRecDepth 2048 in
theorem utf8DecodeOne_inv {bs rest : Bytes} {c : Nat}
    (h : utf8DecodeOne bs = some (c, rest)) :
    utf8EncodeChar c ++ rest = bs ∧ ValidScalar c := by
  match bs with
  | [] => simp [utf8DecodeOne] at h
  | b0 :: r =>
    simp only [utf8DecodeOne, isCont, Bool.and_eq_true, decide_eq_true_eq] at h
    repeat' split at h
    all_goals simp only [Option.some.injEq, Prod.mk.injEq, reduceCtorEq] at h
    all_goals obtain ⟨h1, h2⟩ := h
    all_goals subst h1
    all_goals subst h2
    all_goals refine ⟨?_, by unfold ValidScalar; omega⟩
    all_goals unfold utf8EncodeChar
    all_goals split_ifs
    all_goals simp only [List.cons_append, List.nil_append, List.cons.injEq,
      eq_self_iff_true, and_true, true_and]
    all_goals omega

theorem utf8Encode_cons (c : Nat) (u : Str) :
    utf8Encode (c :: u) = utf8EncodeChar c ++ utf8Encode u := by
  simp [utf8Encode]

theorem utf8Encode_of_decode (bs : Bytes) (u : Str) (h : utf8Decode bs = some u) :
    utf8Encode u = bs ∧ ValidStr u := by
  suffices H : ∀ n (bs : Bytes), bs.length ≤ n → ∀ u, utf8Decode bs = some u →
      utf8Encode u = bs ∧ ValidStr u from H bs.length bs le_rfl u h
  intro n
  induction n with
  | zero =>
    intro bs hlen u h
    have hbs : bs = [] := List.eq_nil_of_length_eq_zero (Nat.le_zero.mp hlen)
    subst hbs
    rw [utf8Decode_nil] at h
    simp only [Option.some.injEq] at h
    subst h
    exact ⟨rfl, fun c hc => absurd hc (List.not_mem_nil c)⟩
  | succ n ih =>
    intro bs hlen u h
    match bs, hlen with
    | [], _ =>
      rw [utf8Decode_nil] at h
      simp only [Option.some.injEq] at h
      subst h
      exact ⟨rfl, fun c hc => absurd hc (List.not_mem_nil c)⟩
    | b :: r, hlen =>
      rw [utf8Decode_cons] at h
      split at h
      · exact absurd h (by simp)
      · rename_i c rest heq
        simp only [Option.map_eq_some'] at h
        obtain ⟨u', hu', rfl⟩ := h
        have hlt := utf8DecodeOne_length_lt heq
        simp only [List.length_cons] at hlt hlen
        obtain ⟨henc, hval⟩ := utf8DecodeOne_inv heq
        obtain ⟨ih1, ih2⟩ := ih rest (by omega) u' hu'
        refine ⟨?_, ?_⟩
        · rw [utf8Encode_cons, ih1, henc]
        · intro d hd
          rcases List.mem_cons.mp hd with hd | hd
          · subst hd; exact hval
          · exact ih2 d hd

theorem rstripNul_idem (s : Str) : rstripNul (rstripNul s) = rstripNul s := by
  simp only [rstripNul, List.reverse_reverse]
  congr 1
  induction s.reverse with
  | nil => rfl
  | cons a l ihl =>
    by_cases ha : a = 0
    · simp [List.dropWhile_cons, ha, ihl]
    · simp [List.dropWhile_cons, ha]

theorem mem_rstripNul {a : Nat} {s : Str} (h : a ∈ rstripNul s) : a ∈ s := by
  simp only [rstripNul, List.mem_reverse] at h
  have : List.Sublist (s.reverse.dropWhile (· == 0)) s.reverse :=
    List.dropWhile_sublist _
  exact List.mem_reverse.mp (this.mem h)

theorem exists_rstripNul_append (s : Str) :
    ∃ k, s = rstripNul s ++ List.replicate k 0 := by
  refine ⟨(s.reverse.takeWhile (· == 0)).length, ?_⟩
  have hsplit : s.reverse.takeWhile (· == 0) ++ s.reverse.dropWhile (· == 0) =
      s.reverse := List.takeWhile_append_dropWhile _ _
  have htake : s.reverse.takeWhile (· == 0) =
      List.replicate (s.reverse.takeWhile (· == 0)).length 0 := by
    rw [List.eq_replicate_iff]
    refine ⟨rfl, fun b hb => ?_⟩
    have := List.mem_takeWhile_imp hb
    simpa using this
  calc s = s.reverse.reverse := (List.reverse_reverse s).symm
    _ = (s.reverse.takeWhile (· == 0) ++ s.reverse.dropWhile (· == 0)).reverse := by
        rw [hsplit]
    _ = rstripNul s ++ (s.reverse.takeWhile (· == 0)).reverse := by
        rw [List.reverse_append]
        rfl
    _ = rstripNul s ++ List.replicate (s.reverse.takeWhile (· == 0)).length 0 := by
        rw [congrArg List.reverse htake, List.reverse_replicate]

theorem utf8Encode_append (a b : Str) :
    utf8Encode (a ++ b) = utf8Encode a ++ utf8Encode b := by
  simp [utf8Encode]

theorem rstripNul_replicate_zero (k : Nat) :
    rstripNul (List.replicate k 0) = [] := by
  have := rstripNul_append_replicate [] k
  simpa using this

/-- Re-encoding the decode of a byte field never grows past the field:
`decodeStr` then `encodeString` then `decodeStr` is stable.  This is the
reason a borrow record's `book_id` field faithfully round-trips the id
string that was selected from a 4-byte id field. -/
theorem decodeStr_encodeString_stable (r : Bytes) (w : Nat) (hr : r.length ≤ w) :
    decodeStr (encodeString (decodeStr r) w) = decodeStr r := by
  unfold decodeStr decodeString
  cases hdec : utf8Decode r with
  | none =>
    simp only [hdec, Option.map_none', Option.getD_none]
    have henc : utf8Encode ([] : Str) = [] := rfl
    have : encodeString [] w = List.replicate w 0 := by
      simp [encodeString, pyLjust, henc]
    rw [this, utf8Decode_replicate_zero]
    simp [rstripNul_replicate_zero]
  | some u =>
    obtain ⟨henc, hval⟩ := utf8Encode_of_decode r u hdec
    have hval' : ValidStr (rstripNul u) := fun c hc => hval c (mem_rstripNul hc)
    obtain ⟨k, hk⟩ := exists_rstripNul_append u
    have hlen : (utf8Encode (rstripNul u)).length ≤ w := by
      have : utf8Encode u = utf8Encode (rstripNul u) ++ utf8Encode (List.replicate k 0) := by
        conv_lhs => rw [hk]
        exact utf8Encode_append _ _
      have hle : (utf8Encode (rstripNul u)).length ≤ (utf8Encode u).length := by
        rw [this]; simp
      calc (utf8Encode (rstripNul u)).length ≤ (utf8Encode u).length := hle
        _ = r.length := by rw [henc]
        _ ≤ w := hr
    simp only [hdec, Option.map_some', Option.getD_some]
    rw [show (utf8Decode (encodeString (rstripNul u) w)).map rstripNul =
      decodeString (encodeString (rstripNul u) w) from rfl]
    rw [decodeString_encodeString (rstripNul u) w hval' hlen]
    simp [rstripNul_idem]

/-- NUL-free strings decode to themselves through a field of sufficient
width. -/
theorem decodeStr_encodeString_of_nonul (s : Str) (w : Nat) (hs : ValidStr s)
    (hw : (utf8Encode s).length ≤ w) (hnn : rstripNul s = s) :
    decodeStr (encodeString s w) = s := by
  unfold decodeStr
  rw [decodeString_encodeString s w hs hw]
  simp [hnn]

/-! ## Record layouts and `struct` pack/unpack

`LibrarySystem.__init__` (src/libsys/system.py, lines 17-30):
* book   format `'4s100s50s20s4s4s1s1s'`, size 184 (old: `'4s100s50s20s4s1s1s'`, 180)
* member format `'4s50s50s15s10s1s1s'`, size 131
* borrow format `'4s4s4s10s10s1s1s'`, size 34

Unpacked records are tuples of `bytes` fields; the single-byte fields are
modelled as the byte value itself (`b'A'` = 65, `b'B'` = 66, `b'S'` = 83,
`b'R'` = 82, `b'0'` = 48, `b'1'` = 49).
-/

def byteA : Nat := 65
def byteB : Nat := 66
def byteS : Nat := 83
def byteR : Nat := 82
def byte0 : Nat := 48
def byte1 : Nat := 49

/-- One `'Ns'` field of `struct.pack`: truncate to the width, right-pad
with NUL bytes. -/
def packField (f : Bytes) (w : Nat) : Bytes := pyLjust (f.take w) w 0

/-- An unpacked catalog record (new format, with quantity). -/
structure BookRec where
  id : Bytes
  title : Bytes
  author : Bytes
  isbn : Bytes
  year : Bytes
  quantity : Bytes
  status : Nat
  deleted : Nat
  deriving DecidableEq

/-- An unpacked catalog record in the prior 180-byte format (no
quantity field). -/
structure OldBookRec where
  id : Bytes
  title : Bytes
  author : Bytes
  isbn : Bytes
  year : Bytes
  status : Nat
  deleted : Nat
  deriving DecidableEq

/-- An unpacked member record. -/
structure MemberRec where
  id : Bytes
  name : Bytes
  email : Bytes
  phone : Bytes
  joinDate : Bytes
  status : Nat
  deleted : Nat
  deriving DecidableEq

/-- An unpacked loan record. -/
structure BorrowRec where
  id : Bytes
  bookId : Bytes
  memberId : Bytes
  borrowDate : Bytes
  returnDate : Bytes
  status : Nat
  deleted : Nat
  deriving DecidableEq

/-- `struct.pack(self.book_format, ...)`. -/
def packBook (b : BookRec) : Bytes :=
  packField b.id 4 ++ packField b.title 100 ++ packField b.author 50 ++
  packField b.isbn 20 ++ packField b.year 4 ++ packField b.quantity 4 ++
  packField [b.status] 1 ++ packField [b.deleted] 1

/-- `struct.pack(self.old_book_format, ...)`. -/
def packOldBook (b : OldBookRec) : Bytes :=
  packField b.id 4 ++ packField b.title 100 ++ packField b.author 50 ++
  packField b.isbn 20 ++ packField b.year 4 ++
  packField [b.status] 1 ++ packField [b.deleted] 1

/-- `struct.pack(self.member_format, ...)`. -/
def packMember (m : MemberRec) : Bytes :=
  packField m.id 4 ++ packField m.name 50 ++ packField m.email 50 ++
  packField m.phone 15 ++ packField m.joinDate 10 ++
  packField [m.status] 1 ++ packField [m.deleted] 1

/-- `struct.pack(self.borrow_format, ...)`. -/
def packBorrow (b : BorrowRec) : Bytes :=
  packField b.id 4 ++ packField b.bookId 4 ++ packField b.memberId 4 ++
  packField b.borrowDate 10 ++ packField b.returnDate 10 ++
  packField [b.status] 1 ++ packField [b.deleted] 1

/-- `struct.unpack(self.book_format, data)` on a 184-byte chunk. -/
def unpackBook (bs : Bytes) : BookRec :=
  { id := bs.take 4
    title := (bs.drop 4).take 100
    author := (bs.drop 104).take 50
    isbn := (bs.drop 154).take 20
    year := (bs.drop 174).take 4
    quantity := (bs.drop 178).take 4
    status := ((bs.drop 182).take 1).headD 0
    deleted := ((bs.drop 183).take 1).headD 0 }

/-- `struct.unpack(self.old_book_format, data)` on a 180-byte chunk. -/
def unpackOldBook (bs : Bytes) : OldBookRec :=
  { id := bs.take 4
    title := (bs.drop 4).take 100
    author := (bs.drop 104).take 50
    isbn := (bs.drop 154).take 20
    year := (bs.drop 174).take 4
    status := ((bs.drop 178).take 1).headD 0
    deleted := ((bs.drop 179).take 1).headD 0 }

/-- `struct.unpack(self.member_format, data)` on a 131-byte chunk. -/
def unpackMember (bs : Bytes) : MemberRec :=
  { id := bs.take 4
    name := (bs.drop 4).take 50
    email := (bs.drop 54).take 50
    phone := (bs.drop 104).take 15
    joinDate := (bs.drop 119).take 10
    status := ((bs.drop 129).take 1).headD 0
    deleted := ((bs.drop 130).take 1).headD 0 }

/-- `struct.unpack(self.borrow_format, data)` on a 34-byte chunk. -/
def unpackBorrow (bs : Bytes) : BorrowRec :=
  { id := bs.take 4
    bookId := (bs.drop 4).take 4
    memberId := (bs.drop 8).take 4
    borrowDate := (bs.drop 12).take 10
    returnDate := (bs.drop 22).take 10
    status := ((bs.drop 32).take 1).headD 0
    deleted := ((bs.drop 33).take 1).headD 0 }

/-! ## Byte-level file readers

`_get_all_books` (src/libsys/system.py, lines 427-446) checks the chunk
length and breaks on a short final chunk, and catches `struct.error`.
`_get_all_members` (lines 847-858), `_get_all_borrows` (lines 1517-1529)
and `FileManager.read_all_records` (src/library_system/file_manager.py,
lines 39-53) unpack every chunk with no length check and no handler, so a
short final chunk raises `struct.error` (modelled as `Except.error`).
-/

/-- Fuel-driven loop of `_get_all_books`-style chunking; the fuel is
always instantiated with the byte count. -/
def readChunksSkipAux (rsize : Nat) : Nat → Bytes → List Bytes
  | _, [] => []
  | 0, _ :: _ => []
  | fuel + 1, b :: bs =>
    if rsize = 0 then []
    else
      let chunk := (b :: bs).take rsize
      if chunk.length = rsize then
        chunk :: readChunksSkipAux rsize fuel ((b :: bs).drop rsize)
      else []

/-- The chunking loop of `_get_all_books`: read `rsize` bytes at a time,
stop at EOF, stop (skipping) at a short final chunk. -/
def readChunksSkip (rsize : Nat) (file : Bytes) : List Bytes :=
  readChunksSkipAux rsize file.length file

/-- Fuel-driven loop of the strict chunking; the fuel is always
instantiated with the byte count. -/
def readChunksStrictAux (rsize : Nat) : Nat → Bytes → Except Unit (List Bytes)
  | _, [] => .ok []
  | 0, _ :: _ => .error ()
  | fuel + 1, b :: bs =>
    if rsize = 0 then .ok []
    else
      let chunk := (b :: bs).take rsize
      if chunk.length = rsize then
        match readChunksStrictAux rsize fuel ((b :: bs).drop rsize) with
        | .ok rest => .ok (chunk :: rest)
        | .error e => .error e
      else .error ()

/-- The chunking loop of `_get_all_members` / `_get_all_borrows` /
`read_all_records`: read `rsize` bytes at a time, stop at EOF, and raise
`struct.error` on a short final chunk. -/
def readChunksStrict (rsize : Nat) (file : Bytes) : Except Unit (List Bytes) :=
  readChunksStrictAux rsize file.length file

theorem readChunksSkipAux_congr (rsize : Nat) :
    ∀ (f1 f2 : Nat) (file : Bytes), file.length ≤ f1 → file.length ≤ f2 →
      readChunksSkipAux rsize f1 file = readChunksSkipAux rsize f2 file := by
  intro f1
  induction f1 with
  | zero =>
    intro f2 file h1 h2
    have : file = [] := List.eq_nil_of_length_eq_zero (Nat.le_zero.mp h1)
    subst this
    cases f2 <;> rfl
  | succ n ih =>
    intro f2 file h1 h2
    match file with
    | [] => cases f2 <;> rfl
    | b :: bs =>
      match f2 with
      | 0 => simp at h2
      | g + 1 =>
        show (if rsize = 0 then [] else _) = (if rsize = 0 then [] else _)
        by_cases hr : rsize = 0
        · rw [if_pos hr, if_pos hr]
        · rw [if_neg hr, if_neg hr]
          by_cases hlen : ((b :: bs).take rsize).length = rsize
          · rw [if_pos hlen, if_pos hlen]
            simp only [List.length_take, List.length_cons] at hlen
            simp only [List.length_cons] at h1 h2
            have hd : ((b :: bs).drop rsize).length ≤ n := by
              simp only [List.length_drop, List.length_cons]
              omega
            have hd2 : ((b :: bs).drop rsize).length ≤ g := by
              simp only [List.length_drop, List.length_cons]
              omega
            rw [ih g _ hd hd2]
          · rw [if_neg hlen, if_neg hlen]

theorem readChunksSkip_eq (rsize : Nat) (file : Bytes) :
    readChunksSkip rsize file =
      if rsize = 0 ∨ file = [] then []
      else if (file.take rsize).length = rsize then
        file.take rsize :: readChunksSkip rsize (file.drop rsize)
      else [] := by
  match file with
  | [] => simp [readChunksSkip, readChunksSkipAux]
  | b :: bs =>
    by_cases hr : rsize = 0
    · rw [if_pos (Or.inl hr)]
      show (if rsize = 0 then [] else _) = []
      rw [if_pos hr]
    · rw [if_neg (by simp [hr])]
      show (if rsize = 0 then [] else _) = _
      rw [if_neg hr]
      by_cases hlen : ((b :: bs).take rsize).length = rsize
      · rw [if_pos hlen, if_pos hlen]
        congr 1
        apply readChunksSkipAux_congr
        · simp only [List.length_drop, List.length_cons]
          simp only [List.length_take, List.length_cons] at hlen
          omega
        · exact le_rfl
      · rw [if_neg hlen, if_neg hlen]

theorem readChunksStrictAux_congr (rsize : Nat) :
    ∀ (f1 f2 : Nat) (file : Bytes), file.length ≤ f1 → file.length ≤ f2 →
      readChunksStrictAux rsize f1 file = readChunksStrictAux rsize f2 file := by
  intro f1
  induction f1 with
  | zero =>
    intro f2 file h1 h2
    have : file = [] := List.eq_nil_of_length_eq_zero (Nat.le_zero.mp h1)
    subst this
    cases f2 <;> rfl
  | succ n ih =>
    intro f2 file h1 h2
    match file with
    | [] => cases f2 <;> rfl
    | b :: bs =>
      match f2 with
      | 0 => simp at h2
      | g + 1 =>
        show (if rsize = 0 then Except.ok [] else _) =
          (if rsize = 0 then Except.ok [] else _)
        by_cases hr : rsize = 0
        · rw [if_pos hr, if_pos hr]
        · rw [if_neg hr, if_neg hr]
          by_cases hlen : ((b :: bs).take rsize).length = rsize
          · rw [if_pos hlen, if_pos hlen]
            simp only [List.length_take, List.length_cons] at hlen
            simp only [List.length_cons] at h1 h2
            have hd : ((b :: bs).drop rsize).length ≤ n := by
              simp only [List.length_drop, List.length_cons]
              omega
            have hd2 : ((b :: bs).drop rsize).length ≤ g := by
              simp only [List.length_drop, List.length_cons]
              omega
            rw [ih g _ hd hd2]
          · rw [if_neg hlen, if_neg hlen]

theorem readChunksStrict_eq (rsize : Nat) (file : Bytes) :
    readChunksStrict rsize file =
      if rsize = 0 ∨ file = [] then .ok []
      else if (file.take rsize).length = rsize then
        match readChunksStrict rsize (file.drop rsize) with
        | .ok rest => .ok (file.take rsize :: rest)
        | .error e => .error e
      else .error () := by
  match file with
  | [] => simp [readChunksStrict, readChunksStrictAux]
  | b :: bs =>
    by_cases hr : rsize = 0
    · rw [if_pos (Or.inl hr)]
      show (if rsize = 0 then Except.ok [] else _) = _
      rw [if_pos hr]
    · rw [if_neg (by simp [hr])]
      show (if rsize = 0 then Except.ok [] else _) = _
      rw [if_neg hr]
      by_cases hlen : ((b :: bs).take rsize).length = rsize
      · rw [if_pos hlen, if_pos hlen]
        have : readChunksStrictAux rsize bs.length ((b :: bs).drop rsize) =
            readChunksStrict rsize ((b :: bs).drop rsize) := by
          apply readChunksStrictAux_congr
          · simp only [List.length_drop, List.length_cons]
            simp only [List.length_take, List.length_cons] at hlen
            omega
          · exact le_rfl
        rw [this]
      · rw [if_neg hlen, if_neg hlen]

instance {e a : Type} [DecidableEq e] [DecidableEq a] : DecidableEq (Except e a)
  | .ok x, .ok y =>
    if h : x = y then .isTrue (by rw [h])
    else .isFalse (by intro hh; cases hh; exact h rfl)
  | .ok _, .error _ => .isFalse (by intro h; cases h)
  | .error _, .ok _ => .isFalse (by intro h; cases h)
  | .error x, .error y =>
    if h : x = y then .isTrue (by rw [h])
    else .isFalse (by intro hh; cases hh; exact h rfl)

/-- `_get_all_books` on the raw catalog file bytes. -/
def getAllBooksFile (file : Bytes) : List BookRec :=
  (readChunksSkip 184 file).map unpackBook

/-- `_get_all_members` on the raw member file bytes. -/
def getAllMembersFile (file : Bytes) : Except Unit (List MemberRec) :=
  (readChunksStrict 131 file).map (·.map unpackMember)

/-- `_get_all_borrows` on the raw loan file bytes. -/
def getAllBorrowsFile (file : Bytes) : Except Unit (List BorrowRec) :=
  (readChunksStrict 34 file).map (·.map unpackBorrow)

/-- `FileManager.read_all_records` on raw file bytes (generic record
size, undecoded chunks). -/
def readAllRecords (rsize : Nat) (file : Bytes) : Except Unit (List Bytes) :=
  readChunksStrict rsize file

/-! ## Schema migrator

`_migrate_old_data` (src/libsys/system.py, lines 52-109).
-/

/-- Outcome of `_migrate_old_data` on the catalog file's bytes. -/
inductive MigResult where
  /-- Absent/empty file, or length already a multiple of 184: return with
  no backup and no rewrite. -/
  | noop : MigResult
  /-- Length matches neither layout: warning printed, no backup, no
  rewrite. -/
  | corrupt : MigResult
  /-- Old format detected: `backup` written to `books.dat.backup`,
  `newData` written over the catalog file. -/
  | migrated (backup newData : Bytes) : MigResult
  deriving DecidableEq

/-- Re-encode one 180-byte chunk into the 184-byte layout with
`quantity = _encode_string("1", 4)`. -/
def migrateRecord (chunk : Bytes) : Bytes :=
  let old := unpackOldBook chunk
  packBook
    { id := old.id, title := old.title, author := old.author,
      isbn := old.isbn, year := old.year,
      quantity := encodeString [byte1] 4,
      status := old.status, deleted := old.deleted }

/-- Fuel-driven migration loop; the fuel is always instantiated with the
byte count. -/
def migrateChunksAux : Nat → Bytes → Bytes
  | _, [] => []
  | 0, _ :: _ => []
  | fuel + 1, b :: bs =>
    if (b :: bs).length < 180 then []
    else migrateRecord ((b :: bs).take 180) ++
      migrateChunksAux fuel ((b :: bs).drop 180)

/-- The migration loop over the old file: every full 180-byte chunk is
re-encoded; a short trailing chunk is skipped. -/
def migrateChunks (data : Bytes) : Bytes :=
  migrateChunksAux data.length data

theorem migrateChunksAux_congr :
    ∀ (f1 f2 : Nat) (data : Bytes), data.length ≤ f1 → data.length ≤ f2 →
      migrateChunksAux f1 data = migrateChunksAux f2 data := by
  intro f1
  induction f1 with
  | zero =>
    intro f2 data h1 h2
    have : data = [] := List.eq_nil_of_length_eq_zero (Nat.le_zero.mp h1)
    subst this
    cases f2 <;> rfl
  | succ n ih =>
    intro f2 data h1 h2
    match data with
    | [] => cases f2 <;> rfl
    | b :: bs =>
      match f2 with
      | 0 => simp at h2
      | g + 1 =>
        show (if (b :: bs).length < 180 then [] else _) =
          (if (b :: bs).length < 180 then [] else _)
        by_cases hlt : (b :: bs).length < 180
        · rw [if_pos hlt, if_pos hlt]
        · rw [if_neg hlt, if_neg hlt]
          simp only [List.length_cons] at h1 h2 hlt
          congr 1
          apply ih
          · simp only [List.length_drop, List.length_cons]
            omega
          · simp only [List.length_drop, List.length_cons]
            omega

theorem migrateChunks_eq (data : Bytes) :
    migrateChunks data =
      if data.length < 180 then []
      else migrateRecord (data.take 180) ++ migrateChunks (data.drop 180) := by
  match data with
  | [] => rfl
  | b :: bs =>
    show migrateChunksAux (bs.length + 1) (b :: bs) = _
    show (if (b :: bs).length < 180 then [] else _) = _
    by_cases hlt : (b :: bs).length < 180
    · rw [if_pos hlt, if_pos hlt]
    · rw [if_neg hlt, if_neg hlt]
      congr 1
      apply migrateChunksAux_congr
      · simp only [List.length_drop, List.length_cons]
        simp only [List.length_cons] at hlt
        omega
      · exact le_rfl

/-- `_migrate_old_data` as a function of the catalog file's bytes. -/
def migrateOldData (data : Bytes) : MigResult :=
  if data.length = 0 then .noop
  else if data.length % 184 = 0 then .noop
  else if data.length % 180 ≠ 0 then .corrupt
  else .migrated data (migrateChunks data)

/-- The catalog file's bytes after running the migrator once. -/
def afterMigration (data : Bytes) : Bytes :=
  match migrateOldData data with
  | .migrated _ newData => newData
  | _ => data

/-- Did the migrator create a backup file? -/
def migrationMadeBackup (data : Bytes) : Bool :=
  match migrateOldData data with
  | .migrated _ _ => true
  | _ => false

theorem packField_length (f : Bytes) (w : Nat) : (packField f w).length = w := by
  simp only [packField, pyLjust, List.length_append, List.length_replicate,
    List.length_take]
  omega

theorem packField_of_length {f : Bytes} {w : Nat} (h : f.length = w) :
    packField f w = f := by
  simp [packField, pyLjust, List.take_of_length_le (le_of_eq h), h]

theorem encodeString_length (s : Str) (w : Nat) : (encodeString s w).length = w :=
  packField_length (utf8Encode s) w

theorem packBook_length (b : BookRec) : (packBook b).length = 184 := by
  simp [packBook, packField_length]

theorem packOldBook_length (b : OldBookRec) : (packOldBook b).length = 180 := by
  simp [packOldBook, packField_length]

theorem packMember_length (m : MemberRec) : (packMember m).length = 131 := by
  simp [packMember, packField_length]

theorem packBorrow_length (b : BorrowRec) : (packBorrow b).length = 34 := by
  simp [packBorrow, packField_length]

theorem readChunksSkip_short {rsize : Nat} {tail : Bytes}
    (h : tail.length < rsize) : readChunksSkip rsize tail = [] := by
  rw [readChunksSkip_eq]
  by_cases he : tail = []
  · simp [he]
  · have hr : rsize ≠ 0 := by
      have : tail.length ≠ 0 := fun hz => he (List.eq_nil_of_length_eq_zero hz)
      omega
    have hcond : ¬ (rsize = 0 ∨ tail = []) := by tauto
    rw [if_neg hcond]
    have : (tail.take rsize).length ≠ rsize := by
      simp only [List.length_take]
      omega
    rw [if_neg this]

theorem readChunksSkip_cons {rsize : Nat} (c rest : Bytes)
    (hc : c.length = rsize) (hr : rsize ≠ 0) :
    readChunksSkip rsize (c ++ rest) = c :: readChunksSkip rsize rest := by
  rw [readChunksSkip_eq]
  have hcne : c ≠ [] := by
    intro h
    rw [h] at hc
    exact hr hc.symm
  have hcond : ¬ (rsize = 0 ∨ c ++ rest = []) := by
    simp [hr, hcne]
  rw [if_neg hcond]
  have htake : (c ++ rest).take rsize = c := by
    rw [← hc]; exact List.take_left _ _
  have hdrop : (c ++ rest).drop rsize = rest := by
    rw [← hc]; exact List.drop_left _ _
  rw [htake, hdrop, if_pos hc]

theorem readChunksSkip_flatten {rsize : Nat} (chunks : List Bytes) (tail : Bytes)
    (hc : ∀ c ∈ chunks, c.length = rsize) (hr : rsize ≠ 0)
    (ht : tail.length < rsize) :
    readChunksSkip rsize (chunks.flatten ++ tail) = chunks := by
  induction chunks with
  | nil => simpa using readChunksSkip_short ht
  | cons c cs ih =>
    have hcl : c.length = rsize := hc c (List.mem_cons_self c cs)
    have hcs : ∀ x ∈ cs, x.length = rsize := fun x hx => hc x (List.mem_cons_of_mem c hx)
    rw [List.flatten_cons, List.append_assoc, readChunksSkip_cons _ _ hcl hr, ih hcs]

theorem readChunksStrict_nil (rsize : Nat) : readChunksStrict rsize [] = .ok [] := by
  rw [readChunksStrict_eq]
  simp

theorem readChunksStrict_short {rsize : Nat} {tail : Bytes}
    (hne : tail ≠ []) (h : tail.length < rsize) :
    readChunksStrict rsize tail = .error () := by
  rw [readChunksStrict_eq]
  have hr : rsize ≠ 0 := by
    have : tail.length ≠ 0 := fun hz => hne (List.eq_nil_of_length_eq_zero hz)
    omega
  have hcond : ¬ (rsize = 0 ∨ tail = []) := by tauto
  rw [if_neg hcond]
  have : (tail.take rsize).length ≠ rsize := by
    simp only [List.length_take]
    omega
  rw [if_neg this]

theorem readChunksStrict_cons {rsize : Nat} (c rest : Bytes)
    (hc : c.length = rsize) (hr : rsize ≠ 0) :
    readChunksStrict rsize (c ++ rest) =
      match readChunksStrict rsize rest with
      | .ok l => .ok (c :: l)
      | .error e => .error e := by
  rw [readChunksStrict_eq]
  have hcne : c ≠ [] := by
    intro h
    rw [h] at hc
    exact hr hc.symm
  have hcond : ¬ (rsize = 0 ∨ c ++ rest = []) := by
    simp [hr, hcne]
  rw [if_neg hcond]
  have htake : (c ++ rest).take rsize = c := by
    rw [← hc]; exact List.take_left _ _
  have hdrop : (c ++ rest).drop rsize = rest := by
    rw [← hc]; exact List.drop_left _ _
  rw [htake, hdrop, if_pos hc]

theorem readChunksStrict_flatten {rsize : Nat} (chunks : List Bytes)
    (hc : ∀ c ∈ chunks, c.length = rsize) (hr : rsize ≠ 0) :
    readChunksStrict rsize chunks.flatten = .ok chunks := by
  induction chunks with
  | nil => simpa using readChunksStrict_nil rsize
  | cons c cs ih =>
    have hcl : c.length = rsize := hc c (List.mem_cons_self c cs)
    have hcs : ∀ x ∈ cs, x.length = rsize := fun x hx => hc x (List.mem_cons_of_mem c hx)
    rw [List.flatten_cons, readChunksStrict_cons _ _ hcl hr,
      ih hcs]

theorem readChunksStrict_flatten_short {rsize : Nat} (chunks : List Bytes)
    (tail : Bytes) (hc : ∀ c ∈ chunks, c.length = rsize) (hr : rsize ≠ 0)
    (hne : tail ≠ []) (ht : tail.length < rsize) :
    readChunksStrict rsize (chunks.flatten ++ tail) = .error () := by
  induction chunks with
  | nil => simpa using readChunksStrict_short hne ht
  | cons c cs ih =>
    have hcl : c.length = rsize := hc c (List.mem_cons_self c cs)
    have hcs : ∀ x ∈ cs, x.length = rsize := fun x hx => hc x (List.mem_cons_of_mem c hx)
    rw [List.flatten_cons, List.append_assoc, readChunksStrict_cons _ _ hcl hr,
      ih hcs]

theorem take1_headD {l : Bytes} (h : l.length = 1) : [l.headD 0] = l := by
  match l with
  | [a] => rfl

theorem migrateRecord_length (chunk : Bytes) :
    (migrateRecord chunk).length = 184 := packBook_length _

/-- On a full 180-byte chunk, the migrated record is the original bytes
with `[49, 0, 0, 0]` (the encoding of `"1"`) spliced in before the final
two status/deleted bytes; every other field is preserved byte-for-byte. -/
theorem migrateRecord_eq (chunk : Bytes) (h : chunk.length = 180) :
    migrateRecord chunk =
      chunk.take 178 ++ ([byte1, 0, 0, 0] : Bytes) ++ chunk.drop 178 := by
  have d104 : (chunk.drop 4).drop 100 = chunk.drop 104 := by
    simp [List.drop_drop]
  have d154 : (chunk.drop 104).drop 50 = chunk.drop 154 := by
    simp [List.drop_drop]
  have d174 : (chunk.drop 154).drop 20 = chunk.drop 174 := by
    simp [List.drop_drop]
  have d178 : (chunk.drop 174).drop 4 = chunk.drop 178 := by
    simp [List.drop_drop]
  have d179 : (chunk.drop 178).drop 1 = chunk.drop 179 := by
    simp [List.drop_drop]
  have e178 : chunk.take 178 =
      chunk.take 4 ++ ((chunk.drop 4).take 100 ++ ((chunk.drop 104).take 50 ++
        ((chunk.drop 154).take 20 ++ (chunk.drop 174).take 4))) := by
    have a1 : chunk.take 178 = chunk.take 4 ++ (chunk.drop 4).take 174 := by
      simpa using List.take_add chunk 4 174
    have a2 : (chunk.drop 4).take 174 =
        (chunk.drop 4).take 100 ++ (chunk.drop 104).take 74 := by
      have := List.take_add (chunk.drop 4) 100 74
      rw [d104] at this
      simpa using this
    have a3 : (chunk.drop 104).take 74 =
        (chunk.drop 104).take 50 ++ (chunk.drop 154).take 24 := by
      have := List.take_add (chunk.drop 104) 50 24
      rw [d154] at this
      simpa using this
    have a4 : (chunk.drop 154).take 24 =
        (chunk.drop 154).take 20 ++ (chunk.drop 174).take 4 := by
      have := List.take_add (chunk.drop 154) 20 4
      rw [d174] at this
      simpa using this
    rw [a1, a2, a3, a4]
  have etail : chunk.drop 178 =
      (chunk.drop 178).take 1 ++ (chunk.drop 179).take 1 := by
    have l2 : (chunk.drop 178).length = 2 := by simp [h]
    have a1 : (chunk.drop 178).take 2 = chunk.drop 178 :=
      List.take_of_length_le (by omega)
    have a2 : (chunk.drop 178).take 2 =
        (chunk.drop 178).take 1 ++ ((chunk.drop 178).drop 1).take 1 := by
      simpa using List.take_add (chunk.drop 178) 1 1
    rw [d179] at a2
    rw [a1] at a2
    exact a2
  have ls : ((chunk.drop 178).take 1).length = 1 := by
    simp [List.length_take, h]
  have ld : ((chunk.drop 179).take 1).length = 1 := by
    simp [List.length_take, h]
  have f1 : packField (chunk.take 4) 4 = chunk.take 4 :=
    packField_of_length (by simp [List.length_take, h])
  have f2 : packField ((chunk.drop 4).take 100) 100 = (chunk.drop 4).take 100 :=
    packField_of_length (by simp [List.length_take, h])
  have f3 : packField ((chunk.drop 104).take 50) 50 = (chunk.drop 104).take 50 :=
    packField_of_length (by simp [List.length_take, h])
  have f4 : packField ((chunk.drop 154).take 20) 20 = (chunk.drop 154).take 20 :=
    packField_of_length (by simp [List.length_take, h])
  have f5 : packField ((chunk.drop 174).take 4) 4 = (chunk.drop 174).take 4 :=
    packField_of_length (by simp [List.length_take, h])
  have fq : packField (encodeString [byte1] 4) 4 = [byte1, 0, 0, 0] := by rfl
  have fs : packField [((chunk.drop 178).take 1).headD 0] 1 =
      (chunk.drop 178).take 1 := by
    rw [packField_of_length (by rfl), take1_headD ls]
  have fd : packField [((chunk.drop 179).take 1).headD 0] 1 =
      (chunk.drop 179).take 1 := by
    rw [packField_of_length (by rfl), take1_headD ld]
  show packField (chunk.take 4) 4 ++ packField ((chunk.drop 4).take 100) 100 ++
      packField ((chunk.drop 104).take 50) 50 ++
      packField ((chunk.drop 154).take 20) 20 ++
      packField ((chunk.drop 174).take 4) 4 ++
      packField (encodeString [byte1] 4) 4 ++
      packField [((chunk.drop 178).take 1).headD 0] 1 ++
      packField [((chunk.drop 179).take 1).headD 0] 1 = _
  rw [f1, f2, f3, f4, f5, fq, fs, fd]
  conv_rhs => rw [e178, etail]
  simp [List.append_assoc]

theorem migrateChunks_length (data : Bytes) :
    (migrateChunks data).length = data.length / 180 * 184 := by
  suffices H : ∀ n (data : Bytes), data.length ≤ n →
      (migrateChunks data).length = data.length / 180 * 184 from
    H data.length data le_rfl
  intro n
  induction n with
  | zero =>
    intro data hlen
    rw [migrateChunks_eq]
    have : data.length < 180 := by omega
    rw [if_pos this]
    simp
    omega
  | succ n ih =>
    intro data hlen
    rw [migrateChunks_eq]
    by_cases hlt : data.length < 180
    · rw [if_pos hlt]
      simp
      omega
    · rw [if_neg hlt]
      have hdrop : (data.drop 180).length ≤ n := by
        simp only [List.length_drop]
        omega
      rw [List.length_append, migrateRecord_length, ih _ hdrop]
      simp only [List.length_drop]
      omega

/-- Already-current files (length a multiple of 184, including empty)
are left alone. -/
theorem migrateOldData_current {data : Bytes} (h : data.length % 184 = 0) :
    migrateOldData data = .noop := by
  unfold migrateOldData
  by_cases hz : data.length = 0
  · rw [if_pos hz]
  · rw [if_neg hz, if_pos h]

theorem afterMigration_mod (data : Bytes) :
    afterMigration data = data ∨ (afterMigration data).length % 184 = 0 := by
  unfold afterMigration migrateOldData
  by_cases hz : data.length = 0
  · rw [if_pos hz]; exact Or.inl rfl
  · rw [if_neg hz]
    by_cases h184 : data.length % 184 = 0
    · rw [if_pos h184]; exact Or.inl rfl
    · rw [if_neg h184]
      by_cases h180 : data.length % 180 ≠ 0
      · rw [if_pos h180]; exact Or.inl rfl
      · rw [if_neg h180]
        right
        rw [migrateChunks_length]
        omega

/-! ## Dates

`datetime.date` arithmetic as used by the system: `strftime("%Y-%m-%d")`,
`strptime(s, "%Y-%m-%d")`, `date + timedelta(days=7)`, and
`(a - b).days`.  Ordinal conversion is ported from CPython's
`_ymd2ord` / `_ord2ymd`.
-/

/-- A Python `datetime.date` value. -/
structure PyDate where
  year : Nat
  month : Nat
  day : Nat
  deriving DecidableEq

/-- Gregorian leap-year test. -/
def isLeap (y : Nat) : Bool := y % 4 == 0 && (y % 100 != 0 || y % 400 == 0)

/-- `_DAYS_IN_MONTH[m]` (1-based month index). -/
def daysInMonthTbl (m : Nat) : Nat :=
  [0, 31, 28, 31, 30, 31, 30, 31, 31, 30, 31, 30, 31].getD m 0

/-- `_days_in_month(year, month)`. -/
def daysInMonth (y m : Nat) : Nat :=
  if m = 2 ∧ isLeap y then 29 else daysInMonthTbl m

/-- `_DAYS_BEFORE_MONTH[m]` (1-based month index). -/
def daysBeforeMonthTbl (m : Nat) : Nat :=
  [0, 0, 31, 59, 90, 120, 151, 181, 212, 243, 273, 304, 334].getD m 0

/-- `_days_before_month(year, month)`. -/
def daysBeforeMonth (y m : Nat) : Nat :=
  daysBeforeMonthTbl m + (if m > 2 ∧ isLeap y then 1 else 0)

/-- `_days_before_year(year)`. -/
def daysBeforeYear (y : Nat) : Nat :=
  let n := y - 1
  n * 365 + n / 4 - n / 100 + n / 400

/-- `date.toordinal()` (`_ymd2ord`): day 1 is 0001-01-01. -/
def toOrdinal (d : PyDate) : Nat :=
  daysBeforeYear d.year + daysBeforeMonth d.year d.month + d.day

/-- `date.fromordinal(n)` (`_ord2ymd`). -/
def fromOrdinal (nn : Nat) : PyDate :=
  let n0 := nn - 1
  let n400 := n0 / 146097
  let n1r := n0 % 146097
  let year0 := n400 * 400 + 1
  let n100 := n1r / 36524
  let n2r := n1r % 36524
  let n4 := n2r / 1461
  let n3r := n2r % 1461
  let n1 := n3r / 365
  let n := n3r % 365
  let year := year0 + n100 * 100 + n4 * 4 + n1
  if n1 = 4 ∨ n100 = 4 then ⟨year - 1, 12, 31⟩
  else
    let leap := n1 == 3 && (n4 != 24 || n100 == 3)
    let month := (n + 50) >>> 5
    let preceding := daysBeforeMonthTbl month + (if month > 2 ∧ leap then 1 else 0)
    if preceding > n then
      let month1 := month - 1
      let preceding1 :=
        preceding - (daysInMonthTbl month1 + (if month1 = 2 ∧ leap then 1 else 0))
      ⟨year, month1, n - preceding1 + 1⟩
    else
      ⟨year, month, n - preceding + 1⟩

/-- `d + timedelta(days=k)`. -/
def addDays (d : PyDate) (k : Nat) : PyDate := fromOrdinal (toOrdinal d + k)

/-- `(a - b).days` for two dates. -/
def daysBetween (a b : PyDate) : Int := (toOrdinal a : Int) - (toOrdinal b : Int)

/-! ## Decimal rendering and parsing -/

/-- Fuel-driven decimal digit expansion; the fuel is always instantiated
with the number itself. -/
def natDigitsAux : Nat → Nat → Str
  | 0, n => [48 + n % 10]
  | fuel + 1, n =>
    if n < 10 then [48 + n] else natDigitsAux fuel (n / 10) ++ [48 + n % 10]

/-- The decimal digits (as Unicode scalar values, most significant first)
of `n`: Python `str(n)` for a non-negative int. -/
def natDigits (n : Nat) : Str := natDigitsAux n n

/-- `f"{n:0wd}"`: decimal rendering left-padded with zeros to at least
width `w`. -/
def formatNat (n w : Nat) : Str :=
  List.replicate (w - (natDigits n).length) 48 ++ natDigits n

/-- Is `c` a decimal digit scalar? -/
def isDigit (c : Nat) : Bool := 48 ≤ c && c ≤ 57

/-- Value of a decimal digit string (caller checks `isDigit`). -/
def digitsToNat (s : Str) : Nat := s.foldl (fun a c => a * 10 + (c - 48)) 0

/-- Python `int(s)` restricted to the plain non-negative decimal strings
this system stores (no sign, no whitespace): `none` where `int()` raises
`ValueError`. -/
def parsePyNat (s : Str) : Option Nat :=
  if s ≠ [] ∧ s.all isDigit then some (digitsToNat s) else none

/-- `datetime.strptime(s, "%Y-%m-%d").date()`: dash-separated fields of
at most 4/2/2 digits, then the `datetime` range checks; `none` where
Python raises `ValueError`. -/
def parseDate (s : Str) : Option PyDate :=
  match s.splitOn 45 with
  | [ys, ms, ds] =>
    if ys ≠ [] ∧ ys.length ≤ 4 ∧ ys.all isDigit ∧
       ms ≠ [] ∧ ms.length ≤ 2 ∧ ms.all isDigit ∧
       ds ≠ [] ∧ ds.length ≤ 2 ∧ ds.all isDigit then
      let y := digitsToNat ys
      let m := digitsToNat ms
      let d := digitsToNat ds
      if 1 ≤ y ∧ y ≤ 9999 ∧ 1 ≤ m ∧ m ≤ 12 ∧ 1 ≤ d ∧ d ≤ daysInMonth y m then
        some ⟨y, m, d⟩
      else none
    else none
  | _ => none

/-- `date.strftime("%Y-%m-%d")` (year zero-padded to 4, month/day to 2). -/
def renderDate (d : PyDate) : Str :=
  formatNat d.year 4 ++ [45] ++ formatNat d.month 2 ++ [45] ++ formatNat d.day 2

/-! ## The policy engine

State-passing embedding of the borrow/return/ban operations of
`LibrarySystem`.  The three files are carried as lists of unpacked
records (each Python operation re-reads a file, unpacks all records,
and rewrites one whole packed record in place — on this level an
in-place rewrite is `List.set` and an append is `++ [record]`).

Interactive `input()` prompts become parameters; the CLI lets the user
pick a book only from the displayed list, which on this level is the
requirement that the chosen id is found among the listed entries.
-/

/-- All three record files. -/
structure LibState where
  books : List BookRec
  members : List MemberRec
  borrows : List BorrowRec
  deriving DecidableEq

/-- `_find_member_by_id` (system.py line 840): first member whose decoded
id matches and whose deleted flag is `'0'`. -/
def findMemberById (ms : List MemberRec) (memberId : Str) : Option MemberRec :=
  ms.find? (fun m => decodeStr m.id == memberId && m.deleted == byte0)

/-- `_find_member_index_by_id` (line 969); `none` models `-1`. -/
def findMemberIndexById (ms : List MemberRec) (memberId : Str) : Option Nat :=
  ms.findIdx? (fun m => decodeStr m.id == memberId && m.deleted == byte0)

/-- `_find_book_by_id` (line 419). -/
def findBookById (bs : List BookRec) (bookId : Str) : Option BookRec :=
  bs.find? (fun b => decodeStr b.id == bookId && b.deleted == byte0)

/-- `_find_book_index_by_id` (line 635); `none` models `-1`. -/
def findBookIndexById (bs : List BookRec) (bookId : Str) : Option Nat :=
  bs.findIdx? (fun b => decodeStr b.id == bookId && b.deleted == byte0)

/-- `_find_borrow_index_by_id` (line 1708); `none` models `-1`. -/
def findBorrowIndexById (bs : List BorrowRec) (borrowId : Str) : Option Nat :=
  bs.findIdx? (fun l => decodeStr l.id == borrowId && l.deleted == byte0)

/-- `_get_borrowed_quantity` (lines 1632-1645): count the non-deleted
loans with status `'B'` on this book id (each loan record is one copy). -/
def getBorrowedQuantity (borrows : List BorrowRec) (bookId : Str) : Nat :=
  (borrows.filter (fun l =>
    l.deleted == byte0 && l.status == byteB && decodeStr l.bookId == bookId)).length

/-- `int(self._decode_string(book[5]))` with the `except: 1` fallback of
`_get_available_books_for_borrow`. -/
def bookTotalQuantity (b : BookRec) : Nat :=
  (((utf8Decode b.quantity).map rstripNul).bind parsePyNat).getD 1

/-- One entry of the `available_books` list: `(book_id, title, author,
available_quantity, total_quantity, borrowed_quantity)`. -/
structure AvailEntry where
  bookId : Str
  title : Str
  author : Str
  available : Int
  total : Nat
  borrowed : Nat
  deriving DecidableEq

/-- `_get_available_books_for_borrow` (lines 1607-1630): every
non-deleted book whose `total - borrowed` is positive, in file order. -/
def getAvailableBooksForBorrow (st : LibState) : List AvailEntry :=
  st.books.filterMap (fun b =>
    if b.deleted == byte0 then
      let total := bookTotalQuantity b
      let borrowed := getBorrowedQuantity st.borrows (decodeStr b.id)
      let avail : Int := (total : Int) - (borrowed : Int)
      if avail > 0 then
        some ⟨decodeStr b.id, decodeStr b.title, decodeStr b.author,
          avail, total, borrowed⟩
      else none
    else none)

/-- One iteration of the `_check_and_ban_overdue_members` loop
(lines 140-166), threading the member file and the banned-id list. -/
def sweepStep (today : PyDate) (acc : List MemberRec × List Str)
    (l : BorrowRec) : List MemberRec × List Str :=
  let ms := acc.1
  let banned := acc.2
  if l.status == byteB && l.deleted == byte0 then
    match parseDate (decodeStr l.borrowDate) with
    | none => (ms, banned)
    | some bd =>
      let due := addDays bd 7
      if daysBetween today due > 0 then
        let memberId := decodeStr l.memberId
        match findMemberById ms memberId with
        | some m =>
          if m.status == byteA then
            match findMemberIndexById ms memberId with
            | some idx =>
              (ms.set idx { m with status := byteS },
               if memberId ∈ banned then banned else banned ++ [memberId])
            | none => (ms, banned)
          else (ms, banned)
        | none => (ms, banned)
      else (ms, banned)
  else (ms, banned)

/-- `_check_and_ban_overdue_members` (lines 135-168): the overdue sweep.
Returns the updated state and the list of newly banned member ids. -/
def checkAndBanOverdueMembers (st : LibState) (today : PyDate) :
    LibState × List Str :=
  let acc := st.borrows.foldl (sweepStep today) (st.members, [])
  ({ st with members := acc.1 }, acc.2)

/-- `"0001"`. -/
def strId1 : Str := [48, 48, 48, 49]

/-- `_get_next_id` (lines 111-127) given the id field of the last
physical record (`none` when the file is empty or absent): decode the
4-byte field, strip NULs on both sides, parse as int, add one, render
zero-padded to (at least) width 4.  The result is `none` where Python
raises (`UnicodeDecodeError` / `ValueError`). -/
def getNextIdFrom (lastIdField : Option Bytes) : Option Str :=
  match lastIdField with
  | none => some strId1
  | some fid =>
    match utf8Decode fid with
    | none => none
    | some sVal => (parsePyNat (stripNul sVal)).map (fun n => formatNat (n + 1) 4)

/-- `_get_next_id(self.borrows_file, self.borrow_size)`. -/
def getNextBorrowId (borrows : List BorrowRec) : Option Str :=
  getNextIdFrom (borrows.getLast?.map (·.id))

/-- `_get_next_id(self.books_file, self.book_size)`. -/
def getNextBookId (books : List BookRec) : Option Str :=
  getNextIdFrom (books.getLast?.map (·.id))

/-- Typed rejection of a borrow attempt (`add_borrow`'s early returns). -/
inductive BorrowReject where
  /-- no member record with this id -/
  | memberNotFound : BorrowReject
  /-- the member record's status byte is `'S'` -/
  | memberSuspended : BorrowReject
  /-- the book is not among the entries offered for borrowing (zero
  available copies, deleted, or unknown) -/
  | bookUnavailable : BorrowReject
  /-- quantity outside `1..min(3, available)` -/
  | badQuantity : BorrowReject
  /-- an exception escaped to `add_borrow`'s handler (never reached on
  the states considered here) -/
  | internalError : BorrowReject
  deriving DecidableEq

/-- The loan-appending loop of `add_borrow` (lines 1106-1123): one new
record per copy, each with a fresh id from `_get_next_id`.  The `Bool`
is false when id generation raised, aborting the loop (appends made so
far persist). -/
def appendLoans (bookId memberId dateStr : Str) :
    List BorrowRec → List Str → Nat → List BorrowRec × List Str × Bool
  | borrows, ids, 0 => (borrows, ids, true)
  | borrows, ids, k + 1 =>
    match getNextBorrowId borrows with
    | none => (borrows, ids, false)
    | some bid =>
      let newLoan : BorrowRec :=
        { id := encodeString bid 4
          bookId := encodeString bookId 4
          memberId := encodeString memberId 4
          borrowDate := encodeString dateStr 10
          returnDate := encodeString [] 10
          status := byteB
          deleted := byte0 }
      appendLoans bookId memberId dateStr (borrows ++ [newLoan]) (ids ++ [bid]) k

/-- `add_borrow` (lines 1013 ff.), distilled: run the overdue sweep,
look the member up, reject if absent or suspended, require the book to
be among the offered entries, require `1 ≤ qty ≤ min(3, available)`,
then create `qty` OPEN loan records dated today.  Returns the final
state (errors leave the post-sweep state) and the outcome. -/
def addBorrow (st : LibState) (memberId bookId : Str) (qty : Nat)
    (today : PyDate) : LibState × Except BorrowReject (List Str) :=
  let st1 := (checkAndBanOverdueMembers st today).1
  match findMemberById st1.members memberId with
  | none => (st1, .error .memberNotFound)
  | some m =>
    if m.status == byteS then (st1, .error .memberSuspended)
    else
      match (getAvailableBooksForBorrow st1).find? (fun e => e.bookId == bookId) with
      | none => (st1, .error .bookUnavailable)
      | some e =>
        let maxBorrow : Int := min 3 e.available
        if qty < 1 ∨ (qty : Int) > maxBorrow then (st1, .error .badQuantity)
        else
          let dateStr := renderDate today
          let r := appendLoans bookId memberId dateStr st1.borrows [] qty
          ({ st1 with borrows := r.1 },
           if r.2.2 then .ok r.2.1 else .error .internalError)

/-- `_get_member_active_borrows` (lines 1663-1679): the member's
non-deleted OPEN loans as `(borrow_id, book_id, borrow_date)` strings. -/
def getMemberActiveBorrows (borrows : List BorrowRec) (memberId : Str) :
    List (Str × Str × Str) :=
  borrows.filterMap (fun l =>
    if l.deleted == byte0 && l.status == byteB && decodeStr l.memberId == memberId then
      some (decodeStr l.id, decodeStr l.bookId, decodeStr l.borrowDate)
    else none)

/-- Insert one `(borrow_id, date)` entry into the per-book groups,
preserving first-occurrence order (Python dict insertion order). -/
def addToGroup (gs : List (Str × List (Str × Str))) (bkid : Str)
    (entry : Str × Str) : List (Str × List (Str × Str)) :=
  match gs with
  | [] => [(bkid, [entry])]
  | g :: rest =>
    if g.1 == bkid then (g.1, g.2 ++ [entry]) :: rest
    else g :: addToGroup rest bkid entry

/-- `book_borrow_groups` of `return_book` (lines 1170-1175). -/
def groupByBook (active : List (Str × Str × Str)) :
    List (Str × List (Str × Str)) :=
  active.foldl (fun gs t => addToGroup gs t.2.1 (t.1, t.2.2)) []

/-- Typed rejection of a return attempt (`return_book`'s early returns). -/
inductive ReturnReject where
  | memberNotFound : ReturnReject
  | noActiveBorrows : ReturnReject
  /-- book choice index out of range -/
  | badChoice : ReturnReject
  /-- return count outside `1..len(group)` -/
  | badCount : ReturnReject
  /-- an exception escaped to `return_book`'s handler (never reached on
  the states considered here) -/
  | internalError : ReturnReject
  deriving DecidableEq

/-- The per-copy update loop of `return_book` (lines 1239-1259): find the
loan by id, set `return_date = today` and status `'R'`, rewrite in
place.  Collects `returned_borrow_ids`. -/
def returnLoansLoop (dateStr : Str) (entries : List (Str × Str))
    (borrows : List BorrowRec) : List BorrowRec × List Str :=
  entries.foldl (fun acc e =>
    let bs := acc.1
    let rids1 := acc.2 ++ [e.1]
    match findBorrowIndexById bs e.1 with
    | none => (bs, rids1)
    | some idx =>
      match bs.get? idx with
      | none => (bs, rids1)
      | some l =>
        (bs.set idx { l with returnDate := encodeString dateStr 10, status := byteR },
         rids1)) (borrows, [])

/-- The has-overdue scan after a return (lines 1280-1288): first
remaining overdue loan wins; a date that fails to parse raises (`none`). -/
def overdueScan (today : PyDate) : List (Str × Str × Str) → Option Bool
  | [] => some false
  | (_, _, dstr) :: rest =>
    match parseDate dstr with
    | none => none
    | some bd =>
      if daysBetween today (addDays bd 7) > 0 then some true
      else overdueScan today rest

/-- `return_book` (lines 1152 ff.), distilled: look the member up, list
their active loans, group by book, pick the group at `choiceIdx`, return
`count` copies from it (status `'R'`, `return_date = today`), then lift
the ban if the member is suspended and no overdue loan remains. -/
def returnBook (st : LibState) (memberId : Str) (choiceIdx count : Nat)
    (today : PyDate) : LibState × Except ReturnReject (List Str) :=
  match findMemberById st.members memberId with
  | none => (st, .error .memberNotFound)
  | some m =>
    let active := getMemberActiveBorrows st.borrows memberId
    if active.isEmpty then (st, .error .noActiveBorrows)
    else
      let groups := groupByBook active
      match groups.get? choiceIdx with
      | none => (st, .error .badChoice)
      | some g =>
        if count < 1 ∨ count > g.2.length then (st, .error .badCount)
        else
          match g.2.head? with
          | none => (st, .error .internalError)
          | some first =>
            match parseDate first.2 with
            | none => (st, .error .internalError)
            | some _ =>
              let dateStr := renderDate today
              let r := returnLoansLoop dateStr (g.2.take count) st.borrows
              let st1 := { st with borrows := r.1 }
              match overdueScan today (getMemberActiveBorrows r.1 memberId) with
              | none => (st1, .error .internalError)
              | some hasOverdue =>
                if ¬ hasOverdue ∧ m.status == byteS then
                  match findMemberIndexById st.members memberId with
                  | some midx =>
                    ({ st1 with members := st.members.set midx { m with status := byteA } },
                     .ok r.2)
                  | none => (st1, .ok r.2)
                else (st1, .ok r.2)

/-! ## Book creation and soft deletion (`add_book` / `delete_book`) -/

/-- The record `add_book` (lines 228-241) packs and appends. -/
def mkBook (bookId title author isbn year : Str) (quantity : Nat) : BookRec :=
  { id := encodeString bookId 4
    title := encodeString title 100
    author := encodeString author 50
    isbn := encodeString isbn 20
    year := encodeString year 4
    quantity := encodeString (natDigits quantity) 4
    status := byteA
    deleted := byte0 }

/-- A catalog operation: `add_book` (with the interactive fields as
parameters) or `delete_book`. -/
inductive BookOp where
  | create (title author isbn year : Str) (quantity : Nat) : BookOp
  | softDelete (bookId : Str) : BookOp

/-- Apply one catalog operation; returns the new catalog and the id
assigned by a create (`none` for deletes or when id generation raised,
in which case nothing is appended). -/
def applyBookOp (books : List BookRec) : BookOp → List BookRec × Option Str
  | .create t a i y q =>
    match getNextBookId books with
    | none => (books, none)
    | some bid => (books ++ [mkBook bid t a i y q], some bid)
  | .softDelete bid =>
    match findBookIndexById books bid with
    | none => (books, none)
    | some idx =>
      match books.get? idx with
      | none => (books, none)
      | some b => (books.set idx { b with deleted := byte1 }, none)

/-- Apply a sequence of catalog operations, collecting the assigned ids
in order. -/
def applyBookOps (books : List BookRec) : List BookOp → List BookRec × List Str
  | [] => (books, [])
  | op :: rest =>
    let r1 := applyBookOp books op
    let r2 := applyBookOps r1.1 rest
    (r2.1, r1.2.toList ++ r2.2)

/-- Number of `create` operations in a catalog op sequence. -/
def countCreates (ops : List BookOp) : Nat :=
  ops.countP (fun op => match op with | .create _ _ _ _ _ => true | _ => false)

/-- The derived availability of one catalog record, exactly as
`_get_available_books_for_borrow` computes it: stored quantity (with the
legacy fallback of 1) minus the open-loan count. -/
def availableQuantity (st : LibState) (b : BookRec) : Int :=
  (bookTotalQuantity b : Int) -
    (getBorrowedQuantity st.borrows (decodeStr b.id) : Int)

/-- A policy operation on the running system: one borrow attempt or one
return attempt (each with its calendar date). -/
inductive PolicyOp where
  | borrow (memberId bookId : Str) (qty : Nat) (today : PyDate) : PolicyOp
  | ret (memberId : Str) (choiceIdx count : Nat) (today : PyDate) : PolicyOp

/-- Apply one policy operation, keeping the state an attempt leaves
behind whether it succeeds or is rejected. -/
def applyPolicyOp (st : LibState) : PolicyOp → LibState
  | .borrow m b q d => (addBorrow st m b q d).1
  | .ret m c n d => (returnBook st m c n d).1

/-- Apply a sequence of policy operations. -/
def applyPolicyOps (st : LibState) (ops : List PolicyOp) : LibState :=
  ops.foldl applyPolicyOp st

/-- Every book id field in the state is the 4 bytes `struct.unpack`
produces for the `'4s'` id field. -/
def BooksWF (books : List BookRec) : Prop :=
  ∀ b ∈ books, b.id.length = 4

/-! ## Concrete scenario states (spec §8) -/

/-- `"0002"`. -/
def strId2 : Str := [48, 48, 48, 50]

/-- `"0003"`. -/
def strId3 : Str := [48, 48, 48, 51]

/-- `"9999"`. -/
def strId9999 : Str := [57, 57, 57, 57]

/-- A member record as `add_member` packs it (name `"A"`, empty email
and phone), ACTIVE and not deleted. -/
def mkMember (memberId : Str) : MemberRec :=
  { id := encodeString memberId 4
    name := encodeString [65] 50
    email := encodeString [] 50
    phone := encodeString [] 15
    joinDate := encodeString (renderDate ⟨2025, 1, 1⟩) 10
    status := byteA
    deleted := byte0 }

/-- An OPEN loan record as `add_borrow` packs it. -/
def mkOpenLoan (loanId bookId memberId : Str) (borrowDate : PyDate) : BorrowRec :=
  { id := encodeString loanId 4
    bookId := encodeString bookId 4
    memberId := encodeString memberId 4
    borrowDate := encodeString (renderDate borrowDate) 10
    returnDate := encodeString [] 10
    status := byteB
    deleted := byte0 }

/-- Scenario state for C1: item `"0001"` with quantity 2, three ACTIVE
members, no loans. -/
def scenC1State : LibState :=
  { books := [mkBook strId1 [84] [65] [] [50, 48, 50, 48] 2]
    members := [mkMember strId1, mkMember strId2, mkMember strId3]
    borrows := [] }

/-- The date all C1 scenario operations run on. -/
def scenC1Today : PyDate := ⟨2025, 1, 10⟩

/-- C1 scenario, first borrow: `borrow("0001", "0001")`. -/
def scenC1Step1 : LibState × Except BorrowReject (List Str) :=
  addBorrow scenC1State strId1 strId1 1 scenC1Today

/-- C1 scenario, second borrow: `borrow("0001", "0002")`. -/
def scenC1Step2 : LibState × Except BorrowReject (List Str) :=
  addBorrow scenC1Step1.1 strId2 strId1 1 scenC1Today

/-- C1 scenario, third borrow: `borrow("0001", "0003")`. -/
def scenC1Step3 : LibState × Except BorrowReject (List Str) :=
  addBorrow scenC1Step2.1 strId3 strId1 1 scenC1Today

/-- Scenario state for C2: one ACTIVE member `"0001"` holding one OPEN
loan `"0001"` on item `"0001"`, borrowed 2025-03-05. -/
def scenC2State : LibState :=
  { books := [mkBook strId1 [84] [65] [] [50, 48, 50, 48] 1]
    members := [mkMember strId1]
    borrows := [mkOpenLoan strId1 strId1 strId1 ⟨2025, 3, 5⟩] }

/-- The C2 sweep runs on 2025-03-15, ten days after the borrow (period
7, so 3 days overdue). -/
def scenC2Today : PyDate := ⟨2025, 3, 15⟩

/-- C2: the first sweep. -/
def scenC2Sweep1 : LibState × List Str :=
  checkAndBanOverdueMembers scenC2State scenC2Today

/-- C2: a second sweep run immediately after the first. -/
def scenC2Sweep2 : LibState × List Str :=
  checkAndBanOverdueMembers scenC2Sweep1.1 scenC2Today

/-- C2: the return of the single loan after the first sweep. -/
def scenC2Return : LibState × Except ReturnReject (List Str) :=
  returnBook scenC2Sweep1.1 strId1 0 1 scenC2Today

/-- Scenario state for C4's counterexample: member `"0001"` is ACTIVE
but holds an overdue OPEN loan. -/
def scenC4State : LibState :=
  { books := [mkBook strId1 [84] [65] [] [50, 48, 50, 48] 1]
    members := [mkMember strId1]
    borrows := [mkOpenLoan strId1 strId1 strId1 ⟨2025, 3, 5⟩] }

/-- C4 counterexample: a borrow attempt by the unknown member `"9999"`
on 2025-03-15. -/
def scenC4Attempt : LibState × Except BorrowReject (List Str) :=
  addBorrow scenC4State strId9999 strId1 1 ⟨2025, 3, 15⟩

/-- A catalog create op with empty text fields and quantity 1 (the field
values do not matter for id assignment). -/
def plainCreate : BookOp := .create [] [] [] [] 1

/-! # Claim theorems -/

/-- **C5.** For every text field width and every string whose UTF-8 form
does not exceed that width, decoding the encoding gives the string back
after trimming trailing NUL characters: `decode(encode(s, w)) = rstrip(s)`.
This is the codec of every layout (`_encode_string`/`_decode_string` and
`utils.encode_string`/`decode_string` are the same function). -/
theorem claim_C5 (s : Str) (w : Nat) (hs : ValidStr s)
    (hw : (utf8Encode s).length ≤ w) :
    decodeString (encodeString s w) = some (rstripNul s) :=
  decodeString_encodeString s w hs hw

/-- Witness for C5 at the two-character string `"tα"` in a width-20
field. -/
theorem claim_C5_witness :
    ValidStr [116, 945] ∧ (utf8Encode [116, 945]).length ≤ 20 ∧
      decodeString (encodeString [116, 945] 20) = some (rstripNul [116, 945]) :=
  ⟨by decide, by decide, claim_C5 [116, 945] 20 (by decide) (by decide)⟩

/-- **C10.** The string encoder always returns exactly `w` bytes (UTF-8,
truncated to `w`, NUL-padded); consequently every packed record has its
layout's fixed size (184/131/34) and appending a packed record keeps the
file length a multiple of the record size. -/
theorem claim_C10 :
    (∀ (s : Str) (w : Nat), (encodeString s w).length = w) ∧
    (∀ b : BookRec, (packBook b).length = 184) ∧
    (∀ m : MemberRec, (packMember m).length = 131) ∧
    (∀ l : BorrowRec, (packBorrow l).length = 34) ∧
    (∀ (file : Bytes) (b : BookRec),
      184 ∣ file.length → 184 ∣ (file ++ packBook b).length) ∧
    (∀ (file : Bytes) (m : MemberRec),
      131 ∣ file.length → 131 ∣ (file ++ packMember m).length) ∧
    (∀ (file : Bytes) (l : BorrowRec),
      34 ∣ file.length → 34 ∣ (file ++ packBorrow l).length) := by
  refine ⟨encodeString_length, packBook_length, packMember_length,
    packBorrow_length, ?_, ?_, ?_⟩
  · intro file b hf
    rw [List.length_append, packBook_length]
    omega
  · intro file m hf
    rw [List.length_append, packMember_length]
    omega
  · intro file l hf
    rw [List.length_append, packBorrow_length]
    omega

/-- Witness for C10 on an empty loan file and one concrete loan record. -/
theorem claim_C10_witness :
    34 ∣ ([] : Bytes).length ∧
      34 ∣ (([] : Bytes) ++ packBorrow (mkOpenLoan strId1 strId1 strId1 ⟨2025, 1, 1⟩)).length :=
  ⟨by decide,
   claim_C10.2.2.2.2.2.2 [] (mkOpenLoan strId1 strId1 strId1 ⟨2025, 1, 1⟩) (by decide)⟩

/-- **C9 (counterexample).** The claim says no record-stream reader ever
raises, for every stream and every file contents; but on a one-byte file
the member and loan readers (and the generic `read_all_records`) hit
`struct.unpack` with a short chunk and raise `struct.error`
(`Except.error` here). -/
theorem claim_C9_counterexample :
    getAllMembersFile [0] = .error () ∧ getAllBorrowsFile [0] = .error () ∧
      readAllRecords 131 [0] = .error () := by decide

/-- **C9 (amended).** The catalog reader never raises: it returns the
records in on-disk (= append) order and silently skips a short final
chunk.  The member and loan readers also preserve on-disk order on
well-formed files, but a non-empty short final chunk makes them raise
`struct.error` instead of being skipped. -/
theorem claim_C9_amended :
    (∀ (chunks : List Bytes) (tail : Bytes), (∀ c ∈ chunks, c.length = 184) →
      tail.length < 184 →
      getAllBooksFile (chunks.flatten ++ tail) = chunks.map unpackBook) ∧
    (∀ chunks : List Bytes, (∀ c ∈ chunks, c.length = 131) →
      getAllMembersFile chunks.flatten = .ok (chunks.map unpackMember)) ∧
    (∀ (chunks : List Bytes) (tail : Bytes), (∀ c ∈ chunks, c.length = 131) →
      tail ≠ [] → tail.length < 131 →
      getAllMembersFile (chunks.flatten ++ tail) = .error ()) ∧
    (∀ chunks : List Bytes, (∀ c ∈ chunks, c.length = 34) →
      getAllBorrowsFile chunks.flatten = .ok (chunks.map unpackBorrow)) ∧
    (∀ (chunks : List Bytes) (tail : Bytes), (∀ c ∈ chunks, c.length = 34) →
      tail ≠ [] → tail.length < 34 →
      getAllBorrowsFile (chunks.flatten ++ tail) = .error ()) := by
  refine ⟨?_, ?_, ?_, ?_, ?_⟩
  · intro chunks tail hc ht
    unfold getAllBooksFile
    rw [readChunksSkip_flatten chunks tail hc (by omega) ht]
  · intro chunks hc
    unfold getAllMembersFile
    rw [readChunksStrict_flatten chunks hc (by omega)]
    rfl
  · intro chunks tail hc hne ht
    unfold getAllMembersFile
    rw [readChunksStrict_flatten_short chunks tail hc (by omega) hne ht]
    rfl
  · intro chunks hc
    unfold getAllBorrowsFile
    rw [readChunksStrict_flatten chunks hc (by omega)]
    rfl
  · intro chunks tail hc hne ht
    unfold getAllBorrowsFile
    rw [readChunksStrict_flatten_short chunks tail hc (by omega) hne ht]
    rfl

set_option maxRecDepth 4000 in
/-- Witness for C9 (amended) on a one-record loan file with a one-byte
trailing fragment. -/
theorem claim_C9_amended_witness :
    (∀ c ∈ [List.replicate 34 0], c.length = 34) ∧
      getAllBorrowsFile ([List.replicate 34 0].flatten ++ [7]) = .error () :=
  ⟨by decide,
   claim_C9_amended.2.2.2.2 [List.replicate 34 0] [7] (by decide) (by decide) (by decide)⟩

/-- The `i`-th 184-byte slice of the migrated data is the migration of
the `i`-th 180-byte slice of the old data. -/
theorem migrateChunks_slice (i : Nat) :
    ∀ (data : Bytes), i < data.length / 180 →
      ((migrateChunks data).drop (184 * i)).take 184 =
        migrateRecord ((data.drop (180 * i)).take 180) := by
  induction i with
  | zero =>
    intro data hi
    have hge : 180 ≤ data.length := by omega
    rw [migrateChunks_eq, if_neg (by omega)]
    simp only [Nat.mul_zero, List.drop_zero]
    have hlen : (migrateRecord (data.take 180)).length = 184 := migrateRecord_length _
    rw [← hlen]
    exact List.take_left _ _
  | succ n ih =>
    intro data hi
    have hge : 180 ≤ data.length := by omega
    rw [migrateChunks_eq, if_neg (by omega)]
    have hdrop : (migrateRecord (data.take 180) ++ migrateChunks (data.drop 180)).drop (184 * (n + 1)) =
        (migrateChunks (data.drop 180)).drop (184 * n) := by
      have h184 : (migrateRecord (data.take 180)).length = 184 := migrateRecord_length _
      have : 184 * (n + 1) = (migrateRecord (data.take 180)).length + 184 * n := by
        rw [h184]; ring
      rw [this, List.drop_append]
    rw [hdrop]
    have hn : n < (data.drop 180).length / 180 := by
      simp only [List.length_drop]
      omega
    rw [ih (data.drop 180) hn]
    congr 2
    rw [List.drop_drop]
    congr 1
    ring

/-- **C7.** On a non-empty catalog file whose length is a multiple of the
old 180-byte record size but not of the current 184-byte size, the
migrator backs up the original bytes verbatim, re-encodes every
180-byte record into 184 bytes — preserving the first 178 bytes
(id/title/author/code/year) and the final 2 bytes (status/deleted)
byte-for-byte and splicing in `"1"` as the quantity field — and the
result is exactly the concatenation of the migrated records, of length
`count × 184`. -/
theorem claim_C7 (data : Bytes) (hne : data ≠ [])
    (h184 : ¬ (184 ∣ data.length)) (h180 : 180 ∣ data.length) :
    migrateOldData data = .migrated data (migrateChunks data) ∧
    (migrateChunks data).length = data.length / 180 * 184 ∧
    (∀ i < data.length / 180,
      ((migrateChunks data).drop (184 * i)).take 184 =
        ((data.drop (180 * i)).take 180).take 178 ++ ([byte1, 0, 0, 0] : Bytes) ++
          ((data.drop (180 * i)).take 180).drop 178) := by
  have hz : data.length ≠ 0 :=
    fun h => hne (List.eq_nil_of_length_eq_zero h)
  refine ⟨?_, migrateChunks_length data, ?_⟩
  · unfold migrateOldData
    rw [if_neg hz]
    have h1 : ¬ data.length % 184 = 0 := by omega
    have h2 : ¬ (data.length % 180 ≠ 0) := by omega
    rw [if_neg h1, if_neg h2]
  · intro i hi
    rw [migrateChunks_slice i data hi]
    apply migrateRecord_eq
    obtain ⟨k, hk⟩ := h180
    simp only [List.length_take, List.length_drop]
    omega

set_option maxRecDepth 10000 in
/-- Witness for C7 on one 180-byte legacy record. -/
theorem claim_C7_witness :
    (List.replicate 180 65 : Bytes) ≠ [] ∧
    ¬ (184 ∣ (List.replicate 180 65 : Bytes).length) ∧
    180 ∣ (List.replicate 180 65 : Bytes).length ∧
    migrateOldData (List.replicate 180 65) =
      .migrated (List.replicate 180 65) (migrateChunks (List.replicate 180 65)) :=
  ⟨by decide, by decide, by decide,
   (claim_C7 (List.replicate 180 65) (by decide) (by decide) (by decide)).1⟩

/-- **C8.** On a catalog file already in the current format (length a
multiple of 184, including empty) the migrator is a no-op: no backup, no
rewrite; and running the migrator twice always equals running it once
(the second run writes nothing and makes no backup). -/
theorem claim_C8 :
    (∀ data : Bytes, 184 ∣ data.length →
      migrateOldData data = .noop ∧ afterMigration data = data ∧
        migrationMadeBackup data = false) ∧
    (∀ data : Bytes,
      afterMigration (afterMigration data) = afterMigration data ∧
        migrationMadeBackup (afterMigration data) = false) := by
  constructor
  · intro data h
    have hm := @migrateOldData_current data (by omega)
    refine ⟨hm, ?_, ?_⟩
    · unfold afterMigration
      rw [hm]
    · unfold migrationMadeBackup
      rw [hm]
  · intro data
    by_cases hz : data.length = 0
    · have hm : migrateOldData data = .noop := by
        unfold migrateOldData
        rw [if_pos hz]
      have ha : afterMigration data = data := by
        unfold afterMigration
        rw [hm]
      rw [ha]
      exact ⟨ha, by unfold migrationMadeBackup; rw [hm]⟩
    · by_cases h184 : data.length % 184 = 0
      · have hm : migrateOldData data = .noop := by
          unfold migrateOldData
          rw [if_neg hz, if_pos h184]
        have ha : afterMigration data = data := by
          unfold afterMigration
          rw [hm]
        rw [ha]
        exact ⟨ha, by unfold migrationMadeBackup; rw [hm]⟩
      · by_cases h180 : data.length % 180 ≠ 0
        · have hm : migrateOldData data = .corrupt := by
            unfold migrateOldData
            rw [if_neg hz, if_neg h184, if_pos h180]
          have ha : afterMigration data = data := by
            unfold afterMigration
            rw [hm]
          rw [ha]
          exact ⟨ha, by unfold migrationMadeBackup; rw [hm]⟩
        · have hm : migrateOldData data = .migrated data (migrateChunks data) := by
            unfold migrateOldData
            rw [if_neg hz, if_neg h184, if_neg h180]
          have ha : afterMigration data = migrateChunks data := by
            unfold afterMigration
            rw [hm]
          have hm2 : migrateOldData (migrateChunks data) = .noop :=
            migrateOldData_current (by rw [migrateChunks_length]; omega)
          rw [ha]
          refine ⟨?_, ?_⟩
          · unfold afterMigration
            rw [hm2]
          · unfold migrationMadeBackup
            rw [hm2]

set_option maxRecDepth 10000 in
/-- Witness for C8 on a one-record current-format file and a one-record
legacy file. -/
theorem claim_C8_witness :
    184 ∣ (List.replicate 184 0 : Bytes).length ∧
    migrateOldData (List.replicate 184 0) = .noop ∧
    afterMigration (afterMigration (List.replicate 180 0)) =
      afterMigration (List.replicate 180 0) :=
  ⟨by decide, (claim_C8.1 (List.replicate 184 0) (by decide)).1,
   (claim_C8.2 (List.replicate 180 0)).1⟩

/-- **C1.** Availability is computed, not stored: for every non-deleted
catalog record, `available = quantity − |{loan : loan.item_id = id ∧
loan.status = OPEN ∧ ¬loan.deleted}|`; and in the concrete scenario —
item `"0001"` with quantity 2 and no loans — two borrows by members
`"0001"` and `"0002"` succeed creating loans `"0001"` and `"0002"`,
availability is then 0, and a third borrow is rejected as a typed
policy rejection (`bookUnavailable`) without creating any loan. -/
theorem claim_C1 :
    (∀ (st : LibState) (b : BookRec), b ∈ st.books → b.deleted = byte0 →
      availableQuantity st b = (bookTotalQuantity b : Int) -
        ((st.borrows.filter (fun l => decide (decodeStr l.bookId = decodeStr b.id ∧
          l.status = byteB ∧ l.deleted = byte0))).length : Int)) ∧
    scenC1Step1.2 = .ok [strId1] ∧
    scenC1Step2.2 = .ok [strId2] ∧
    getBorrowedQuantity scenC1Step2.1.borrows strId1 = 2 ∧
    (∀ b ∈ scenC1Step2.1.books, availableQuantity scenC1Step2.1 b = 0) ∧
    scenC1Step3.2 = .error .bookUnavailable ∧
    scenC1Step3.1.borrows = scenC1Step2.1.borrows := by
  refine ⟨?_, ?_⟩
  · intro st b _ _
    unfold availableQuantity getBorrowedQuantity
    have hf : st.borrows.filter (fun l =>
        l.deleted == byte0 && l.status == byteB && decodeStr l.bookId == decodeStr b.id) =
        st.borrows.filter (fun l => decide (decodeStr l.bookId = decodeStr b.id ∧
          l.status = byteB ∧ l.deleted = byte0)) := by
      apply List.filter_congr
      intro x _
      by_cases h1 : x.deleted = byte0 <;> by_cases h2 : x.status = byteB <;>
        by_cases h3 : decodeStr x.bookId = decodeStr b.id <;>
        simp [h1, h2, h3]
    rw [hf]
  · decide

/-- Witness for C1's general availability equation, at the C1 scenario
state after the two successful borrows. -/
theorem claim_C1_witness :
    mkBook strId1 [84] [65] [] [50, 48, 50, 48] 2 ∈ scenC1Step2.1.books ∧
    (mkBook strId1 [84] [65] [] [50, 48, 50, 48] 2).deleted = byte0 ∧
    availableQuantity scenC1Step2.1 (mkBook strId1 [84] [65] [] [50, 48, 50, 48] 2) =
      (bookTotalQuantity (mkBook strId1 [84] [65] [] [50, 48, 50, 48] 2) : Int) -
        ((scenC1Step2.1.borrows.filter (fun l =>
          decide (decodeStr l.bookId = decodeStr (mkBook strId1 [84] [65] [] [50, 48, 50, 48] 2).id ∧
            l.status = byteB ∧ l.deleted = byte0))).length : Int) :=
  ⟨by decide, by decide,
   claim_C1.1 scenC1Step2.1 (mkBook strId1 [84] [65] [] [50, 48, 50, 48] 2)
     (by decide) (by decide)⟩

/-- **C2.** Ban/unban cycle at concrete dates (borrow 2025-03-05, sweep
and return on 2025-03-15, period 7): the sweep suspends the member and
reports them; a second sweep immediately after is a no-op on the whole
state and suspends no one; the return marks the loan RETURNED with
`return_date = today` and reinstates the member to ACTIVE. -/
theorem claim_C2 :
    scenC2Sweep1.2 = [strId1] ∧
    (∀ m ∈ scenC2Sweep1.1.members, m.status = byteS) ∧
    scenC2Sweep2.1 = scenC2Sweep1.1 ∧
    scenC2Sweep2.2 = [] ∧
    scenC2Return.2 = .ok [strId1] ∧
    (∀ l ∈ scenC2Return.1.borrows, l.status = byteR ∧
      l.returnDate = encodeString (renderDate scenC2Today) 10) ∧
    (∀ m ∈ scenC2Return.1.members, m.status = byteA) := by decide

theorem sweepStep_cases (today : PyDate) (acc : List MemberRec × List Str)
    (l : BorrowRec) :
    sweepStep today acc l = acc ∨ (sweepStep today acc l).2 ≠ [] := by
  unfold sweepStep
  dsimp only
  repeat' split
  all_goals first
    | exact Or.inl rfl
    | (right
       dsimp only
       first
         | exact List.ne_nil_of_mem (by assumption)
         | simp)

theorem sweepStep_banned_nil {today : PyDate} {acc : List MemberRec × List Str}
    {l : BorrowRec} (h : (sweepStep today acc l).2 = []) :
    sweepStep today acc l = acc ∧ acc.2 = [] := by
  rcases sweepStep_cases today acc l with hc | hc
  · exact ⟨hc, by rw [← hc]; exact h⟩
  · exact absurd h hc

theorem sweep_fold_banned_nil (today : PyDate) :
    ∀ (borrows : List BorrowRec) (ms : List MemberRec) (banned : List Str),
      (borrows.foldl (sweepStep today) (ms, banned)).2 = [] →
        borrows.foldl (sweepStep today) (ms, banned) = (ms, banned) ∧ banned = [] := by
  intro borrows
  induction borrows with
  | nil =>
    intro ms banned h
    exact ⟨rfl, h⟩
  | cons l rest ih =>
    intro ms banned h
    rw [List.foldl_cons] at h ⊢
    have hp := ih (sweepStep today (ms, banned) l).1 (sweepStep today (ms, banned) l).2 h
    obtain ⟨hfold, hnil⟩ := hp
    obtain ⟨hstep, hbn⟩ := sweepStep_banned_nil hnil
    refine ⟨?_, hbn⟩
    calc rest.foldl (sweepStep today) (sweepStep today (ms, banned) l)
        = (sweepStep today (ms, banned) l) := hfold
      _ = (ms, banned) := hstep

theorem checkAndBan_books (st : LibState) (today : PyDate) :
    (checkAndBanOverdueMembers st today).1.books = st.books := rfl

theorem checkAndBan_borrows (st : LibState) (today : PyDate) :
    (checkAndBanOverdueMembers st today).1.borrows = st.borrows := rfl

theorem checkAndBan_nil_banned (st : LibState) (today : PyDate)
    (h : (checkAndBanOverdueMembers st today).2 = []) :
    (checkAndBanOverdueMembers st today).1 = st := by
  unfold checkAndBanOverdueMembers at h ⊢
  simp only at h ⊢
  obtain ⟨hfold, _⟩ := sweep_fold_banned_nil today st.borrows st.members [] h
  rw [hfold]

/-- **C4 (counterexample).** The claim says a rejected borrow leaves all
three files unchanged; but `add_borrow` runs the overdue sweep before
reading any input, so a borrow attempt by an unknown member in a state
where some ACTIVE member holds an overdue loan is rejected — yet the
member file has changed (that member is now SUSPENDED). -/
theorem claim_C4_counterexample :
    scenC4Attempt.2 = .error .memberNotFound ∧
      scenC4Attempt.1.members ≠ scenC4State.members := by decide

/-- **C4 (amended).** A borrow attempt is rejected as a typed rejection
when the member is not found, when the member is suspended, or when the
item is not among the entries with a positive available count; a
rejected borrow appends no loan and leaves the catalog and loan files
unchanged, and leaves the member file exactly as the overdue sweep run
at the start of the attempt left it — unchanged whenever that sweep
suspends no one. -/
theorem claim_C4_amended (st : LibState) (memberId bookId : Str) (qty : Nat)
    (today : PyDate) :
    (findMemberById (checkAndBanOverdueMembers st today).1.members memberId = none →
      (addBorrow st memberId bookId qty today).2 = .error .memberNotFound) ∧
    (∀ m, findMemberById (checkAndBanOverdueMembers st today).1.members memberId = some m →
      m.status = byteS →
      (addBorrow st memberId bookId qty today).2 = .error .memberSuspended) ∧
    (∀ m, findMemberById (checkAndBanOverdueMembers st today).1.members memberId = some m →
      m.status ≠ byteS →
      (getAvailableBooksForBorrow (checkAndBanOverdueMembers st today).1).find?
        (fun e => e.bookId == bookId) = none →
      (addBorrow st memberId bookId qty today).2 = .error .bookUnavailable) ∧
    (∀ e, (addBorrow st memberId bookId qty today).2 = .error e →
      e ≠ .internalError →
      (addBorrow st memberId bookId qty today).1 =
        (checkAndBanOverdueMembers st today).1) ∧
    ((checkAndBanOverdueMembers st today).1.books = st.books) ∧
    ((checkAndBanOverdueMembers st today).1.borrows = st.borrows) ∧
    ((checkAndBanOverdueMembers st today).2 = [] →
      (checkAndBanOverdueMembers st today).1 = st) := by
  refine ⟨?_, ?_, ?_, ?_, checkAndBan_books st today, checkAndBan_borrows st today,
    checkAndBan_nil_banned st today⟩
  · intro hnone
    unfold addBorrow
    dsimp only
    rw [hnone]
  · intro m hm hs
    unfold addBorrow
    dsimp only
    rw [hm]
    dsimp only
    rw [if_pos (by simp [hs])]
  · intro m hm hs hfind
    unfold addBorrow
    dsimp only
    rw [hm]
    dsimp only
    rw [if_neg (by simp [hs]), hfind]
  · intro e herr hne
    revert herr
    unfold addBorrow
    dsimp only
    split
    · intro _
      rfl
    · split
      · intro _
        rfl
      · split
        · intro _
          rfl
        · split
          · intro _
            rfl
          · split <;> intro herr
            · exact absurd herr (by simp)
            · simp only [Except.error.injEq] at herr
              exact absurd herr.symm hne

/-- Witness for C4 (amended): the scenC4 attempt hits the member-not-found
rejection and leaves the state as the sweep left it. -/
theorem claim_C4_amended_witness :
    findMemberById (checkAndBanOverdueMembers scenC4State ⟨2025, 3, 15⟩).1.members
        strId9999 = none ∧
      (addBorrow scenC4State strId9999 strId1 1 ⟨2025, 3, 15⟩).2 =
        .error .memberNotFound :=
  ⟨by decide,
   (claim_C4_amended scenC4State strId9999 strId1 1 ⟨2025, 3, 15⟩).1 (by decide)⟩

/-! ## Decimal digits and the identifier generator -/

theorem natDigitsAux_congr :
    ∀ (f1 f2 n : Nat), n ≤ f1 → n ≤ f2 → natDigitsAux f1 n = natDigitsAux f2 n := by
  intro f1
  induction f1 with
  | zero =>
    intro f2 n h1 _
    have hn : n = 0 := by omega
    subst hn
    cases f2 with
    | zero => rfl
    | succ g =>
      show [48 + 0 % 10] = if (0 : Nat) < 10 then [48 + 0] else _
      rw [if_pos (by omega)]
  | succ k ih =>
    intro f2 n h1 h2
    by_cases hn : n < 10
    · cases f2 with
      | zero =>
        have hz : n = 0 := by omega
        subst hz
        show (if (0 : Nat) < 10 then [48 + 0] else _) = [48 + 0 % 10]
        rw [if_pos (by omega)]
      | succ g =>
        show (if n < 10 then [48 + n] else _) = (if n < 10 then [48 + n] else _)
        rw [if_pos hn, if_pos hn]
    · match f2, h2 with
      | 0, h2 => exact absurd h2 (by omega)
      | g + 1, h2 =>
        show (if n < 10 then _ else natDigitsAux k (n / 10) ++ [48 + n % 10]) =
          (if n < 10 then _ else natDigitsAux g (n / 10) ++ [48 + n % 10])
        rw [if_neg hn, if_neg hn, ih g (n / 10) (by omega) (by omega)]

theorem natDigits_eq (n : Nat) :
    natDigits n = if n < 10 then [48 + n]
      else natDigits (n / 10) ++ [48 + n % 10] := by
  by_cases hn : n < 10
  · rw [if_pos hn]
    cases n with
    | zero => rfl
    | succ m =>
      show (if m + 1 < 10 then [48 + (m + 1)] else _) = [48 + (m + 1)]
      rw [if_pos hn]
  · rw [if_neg hn]
    match n, hn with
    | 0, hn => exact absurd (by omega : (0 : Nat) < 10) hn
    | m + 1, hn =>
      show (if m + 1 < 10 then _ else natDigitsAux m ((m + 1) / 10) ++ [48 + (m + 1) % 10]) = _
      rw [if_neg hn]
      congr 1
      exact natDigitsAux_congr m ((m + 1) / 10) ((m + 1) / 10) (by omega) le_rfl

theorem natDigits_all_digits (n : Nat) :
    ∀ c ∈ natDigits n, 48 ≤ c ∧ c ≤ 57 := by
  induction n using Nat.strong_induction_on with
  | _ n ih =>
    rw [natDigits_eq]
    by_cases hn : n < 10
    · rw [if_pos hn]
      intro c hc
      simp only [List.mem_singleton] at hc
      omega
    · rw [if_neg hn]
      intro c hc
      rcases List.mem_append.mp hc with hc | hc
      · exact ih (n / 10) (by omega) c hc
      · simp only [List.mem_singleton] at hc
        have : n % 10 < 10 := Nat.mod_lt _ (by omega)
        omega

theorem natDigits_ne_nil (n : Nat) : natDigits n ≠ [] := by
  rw [natDigits_eq]
  by_cases hn : n < 10
  · rw [if_pos hn]
    simp
  · rw [if_neg hn]
    simp

theorem digitsToNat_concat (xs : Str) (d : Nat) :
    digitsToNat (xs ++ [d]) = digitsToNat xs * 10 + (d - 48) := by
  unfold digitsToNat
  rw [List.foldl_append]
  rfl

theorem digitsToNat_natDigits (n : Nat) : digitsToNat (natDigits n) = n := by
  induction n using Nat.strong_induction_on with
  | _ n ih =>
    rw [natDigits_eq]
    by_cases hn : n < 10
    · rw [if_pos hn]
      show 0 * 10 + (48 + n - 48) = n
      omega
    · rw [if_neg hn]
      rw [digitsToNat_concat, ih (n / 10) (by omega)]
      omega

theorem natDigits_length_le (k : Nat) :
    ∀ n : Nat, n < 10 ^ (k + 1) → (natDigits n).length ≤ k + 1 := by
  induction k with
  | zero =>
    intro n hn
    rw [natDigits_eq, if_pos (by simpa using hn)]
    simp
  | succ k ih =>
    intro n hn
    rw [natDigits_eq]
    by_cases h10 : n < 10
    · rw [if_pos h10]
      simp
    · rw [if_neg h10]
      rw [List.length_append]
      have : n / 10 < 10 ^ (k + 1) := by
        rw [pow_succ] at hn
        omega
      have := ih (n / 10) this
      simp only [List.length_singleton]
      omega

theorem digitsToNat_replicate48 (j : Nat) (s : Str) :
    digitsToNat (List.replicate j 48 ++ s) = digitsToNat s := by
  induction j with
  | zero => rfl
  | succ m ih =>
    rw [List.replicate_succ, List.cons_append]
    show digitsToNat (List.replicate m 48 ++ s) = _
    exact ih

theorem formatNat_all_digits (n w : Nat) :
    ∀ c ∈ formatNat n w, 48 ≤ c ∧ c ≤ 57 := by
  intro c hc
  unfold formatNat at hc
  rcases List.mem_append.mp hc with hc | hc
  · have := List.eq_of_mem_replicate hc
    omega
  · exact natDigits_all_digits n c hc

theorem formatNat_ne_nil (n w : Nat) : formatNat n w ≠ [] := by
  unfold formatNat
  intro h
  rcases List.append_eq_nil.mp h with ⟨_, h2⟩
  exact natDigits_ne_nil n h2

theorem parsePyNat_formatNat (n w : Nat) :
    parsePyNat (formatNat n w) = some n := by
  unfold parsePyNat
  rw [if_pos]
  · congr 1
    unfold formatNat
    rw [digitsToNat_replicate48]
    exact digitsToNat_natDigits n
  · refine ⟨formatNat_ne_nil n w, ?_⟩
    rw [List.all_eq_true]
    intro c hc
    have := formatNat_all_digits n w c hc
    simp only [isDigit, Bool.and_eq_true, decide_eq_true_eq]
    omega

theorem formatNat_length (n : Nat) (h : n ≤ 9999) :
    (formatNat n 4).length = 4 := by
  unfold formatNat
  rw [List.length_append, List.length_replicate]
  have : (natDigits n).length ≤ 4 := natDigits_length_le 3 n (by omega)
  omega

theorem utf8Encode_ascii {s : Str} (h : ∀ c ∈ s, c < 128) :
    utf8Encode s = s := by
  induction s with
  | nil => rfl
  | cons c cs ih =>
    rw [utf8Encode_cons]
    have hc : c < 128 := h c (List.mem_cons_self c cs)
    rw [show utf8EncodeChar c = [c] by unfold utf8EncodeChar; rw [if_pos hc]]
    rw [ih (fun d hd => h d (List.mem_cons_of_mem c hd))]
    rfl

theorem utf8Decode_ascii {s : Bytes} (h : ∀ c ∈ s, c < 128) :
    utf8Decode s = some s := by
  induction s with
  | nil => exact utf8Decode_nil
  | cons c cs ih =>
    have hc : c < 128 := h c (List.mem_cons_self c cs)
    have hone : utf8DecodeOne (c :: cs) = some (c, cs) := by
      show (if c < 128 then some (c, cs) else _) = some (c, cs)
      rw [if_pos hc]
    rw [utf8Decode_of_one_some hone, ih (fun d hd => h d (List.mem_cons_of_mem c hd))]
    rfl

theorem rstripNul_of_no_zero {s : Str} (h : ∀ c ∈ s, c ≠ 0) :
    rstripNul s = s := by
  unfold rstripNul
  have hd : List.dropWhile (· == 0) s.reverse = s.reverse := by
    rw [List.dropWhile_eq_self_iff]
    intro hl
    have hlen : 0 < s.length := by simpa using hl
    have hm : s[s.length - 1] ∈ s := List.getElem_mem (by omega)
    simp [h _ hm]
  rw [hd, List.reverse_reverse]

theorem lstripNul_of_no_zero {s : Str} (h : ∀ c ∈ s, c ≠ 0) :
    lstripNul s = s := by
  unfold lstripNul
  rw [List.dropWhile_eq_self_iff]
  intro hl
  have hm : s[0] ∈ s := List.getElem_mem hl
  simp [h _ hm]

theorem stripNul_of_no_zero {s : Str} (h : ∀ c ∈ s, c ≠ 0) :
    stripNul s = s := by
  unfold stripNul
  rw [rstripNul_of_no_zero h, lstripNul_of_no_zero h]

/-- The identifier-generator step: from a stored id field holding the
zero-padded rendering of `k ≤ 9999`, `_get_next_id` produces the
zero-padded rendering of `k + 1`. -/
theorem getNextIdFrom_formatNat (k : Nat) (hk : k ≤ 9999) :
    getNextIdFrom (some (encodeString (formatNat k 4) 4)) =
      some (formatNat (k + 1) 4) := by
  have hdig := formatNat_all_digits k 4
  have hascii : ∀ c ∈ formatNat k 4, c < 128 := by
    intro c hc
    have := hdig c hc
    omega
  have hnz : ∀ c ∈ formatNat k 4, c ≠ 0 := by
    intro c hc
    have := hdig c hc
    omega
  have hlen : (formatNat k 4).length = 4 := formatNat_length k hk
  have henc : encodeString (formatNat k 4) 4 = formatNat k 4 := by
    unfold encodeString pyLjust
    rw [utf8Encode_ascii hascii, List.take_of_length_le (by omega), hlen]
    simp
  rw [henc]
  simp only [getNextIdFrom]
  rw [utf8Decode_ascii hascii]
  simp only
  rw [stripNul_of_no_zero hnz]
  rw [parsePyNat_formatNat k 4]
  rfl

/-- Invariant tying the catalog contents to the number of creates so
far: `k` creates have happened and the last physical record's id field
holds the (possibly truncated) encoding of the `k`-th assigned id. -/
def IdInv (books : List BookRec) (k : Nat) : Prop :=
  (k = 0 ∧ books = []) ∨
    (1 ≤ k ∧ ∃ b, books.getLast? = some b ∧
      b.id = encodeString (formatNat k 4) 4)

theorem getLast?_set_id (books : List BookRec) (idx : Nat) (b v : BookRec)
    (hget : books[idx]? = some b) (hid : v.id = b.id) (b0 : BookRec)
    (hlast : books.getLast? = some b0) :
    ∃ b1, (books.set idx v).getLast? = some b1 ∧ b1.id = b0.id := by
  have hlen : idx < books.length := by
    by_contra hc
    rw [List.getElem?_eq_none (by omega)] at hget
    exact absurd hget (by simp)
  have hlenset : (books.set idx v).length = books.length := List.length_set _ _ _
  rw [List.getLast?_eq_getElem?] at hlast ⊢
  rw [hlenset]
  by_cases hidx : idx = books.length - 1
  · refine ⟨v, ?_, ?_⟩
    · rw [← hidx]
      exact List.getElem?_set_self hlen
    · rw [hidx] at hget
      rw [hget] at hlast
      simp only [Option.some.injEq] at hlast
      rw [hid, hlast]
  · refine ⟨b0, ?_, rfl⟩
    rw [List.getElem?_set_ne hidx]
    exact hlast

theorem applyBookOp_create (books : List BookRec) (k : Nat)
    (t a i y : Str) (q : Nat) (hinv : IdInv books k) (hk : k ≤ 9999) :
    applyBookOp books (.create t a i y q) =
      (books ++ [mkBook (formatNat (k + 1) 4) t a i y q],
        some (formatNat (k + 1) 4)) ∧
    IdInv (books ++ [mkBook (formatNat (k + 1) 4) t a i y q]) (k + 1) := by
  have hnext : getNextBookId books = some (formatNat (k + 1) 4) := by
    rcases hinv with ⟨hk0, hb⟩ | ⟨hk1, b, hlast, hbid⟩
    · subst hb
      show getNextIdFrom none = _
      show some strId1 = _
      congr 1
      subst hk0
      decide
    · unfold getNextBookId
      rw [hlast]
      show getNextIdFrom (some b.id) = _
      rw [hbid]
      exact getNextIdFrom_formatNat k hk
  constructor
  · show (match getNextBookId books with
      | none => (books, none)
      | some bid => (books ++ [mkBook bid t a i y q], some bid)) = _
    rw [hnext]
  · right
    refine ⟨by omega, mkBook (formatNat (k + 1) 4) t a i y q, ?_, rfl⟩
    exact List.getLast?_concat _

theorem applyBookOp_softDelete (books : List BookRec) (k : Nat) (bid : Str)
    (hinv : IdInv books k) :
    IdInv (applyBookOp books (.softDelete bid)).1 k ∧
      (applyBookOp books (.softDelete bid)).2 = none := by
  cases hfind : findBookIndexById books bid with
  | none =>
    simp only [applyBookOp, hfind]
    exact ⟨hinv, trivial⟩
  | some idx =>
    cases hget : books.get? idx with
    | none =>
      simp only [applyBookOp, hfind, hget]
      exact ⟨hinv, trivial⟩
    | some b =>
      simp only [applyBookOp, hfind, hget]
      refine ⟨?_, trivial⟩
      rcases hinv with ⟨hk0, hb⟩ | ⟨hk1, b0, hlast, hbid⟩
      · subst hb
        simp at hget
      · right
        refine ⟨hk1, ?_⟩
        obtain ⟨b1, hb1, hb1id⟩ :=
          getLast?_set_id books idx b { b with deleted := byte1 }
            (by rw [← List.get?_eq_getElem?]; exact hget) rfl b0 hlast
        exact ⟨b1, hb1, by rw [hb1id, hbid]⟩

theorem applyBookOps_ids :
    ∀ (ops : List BookOp) (books : List BookRec) (k : Nat),
      IdInv books k → k + countCreates ops ≤ 10000 →
      (applyBookOps books ops).2 =
        (List.range' (k + 1) (countCreates ops)).map (fun j => formatNat j 4) ∧
      IdInv (applyBookOps books ops).1 (k + countCreates ops) := by
  intro ops
  induction ops with
  | nil =>
    intro books k hinv _
    exact ⟨rfl, hinv⟩
  | cons op rest ih =>
    intro books k hinv hbound
    cases op with
    | create t a i y q =>
      have hcount : countCreates (.create t a i y q :: rest) = countCreates rest + 1 := by
        simp [countCreates]
      have hk : k ≤ 9999 := by
        rw [hcount] at hbound
        omega
      obtain ⟨happ, hinv1⟩ := applyBookOp_create books k t a i y q hinv hk
      have hih := ih (books ++ [mkBook (formatNat (k + 1) 4) t a i y q]) (k + 1)
        hinv1 (by rw [hcount] at hbound; omega)
      constructor
      · show ((applyBookOp books (.create t a i y q)).2).toList ++
          (applyBookOps (applyBookOp books (.create t a i y q)).1 rest).2 = _
        rw [happ]
        simp only [Option.toList_some]
        rw [hih.1, hcount]
        rw [List.range'_succ]
        simp
      · show IdInv (applyBookOps (applyBookOp books (.create t a i y q)).1 rest).1 _
        rw [happ, hcount]
        have : k + (countCreates rest + 1) = (k + 1) + countCreates rest := by omega
        rw [this]
        exact hih.2
    | softDelete bid =>
      have hcount : countCreates (.softDelete bid :: rest) = countCreates rest := by
        simp [countCreates]
      obtain ⟨hinv1, hnone⟩ := applyBookOp_softDelete books k bid hinv
      have hih := ih (applyBookOp books (.softDelete bid)).1 k hinv1
        (by rw [hcount] at hbound; omega)
      constructor
      · show ((applyBookOp books (.softDelete bid)).2).toList ++
          (applyBookOps (applyBookOp books (.softDelete bid)).1 rest).2 = _
        rw [hnone, hcount]
        simp only [Option.toList_none, List.nil_append]
        exact hih.1
      · show IdInv (applyBookOps (applyBookOp books (.softDelete bid)).1 rest).1 _
        rw [hcount]
        exact hih.2

theorem applyBookOps_append (ops1 : List BookOp) :
    ∀ (books : List BookRec) (ops2 : List BookOp),
      applyBookOps books (ops1 ++ ops2) =
        ((applyBookOps (applyBookOps books ops1).1 ops2).1,
         (applyBookOps books ops1).2 ++
           (applyBookOps (applyBookOps books ops1).1 ops2).2) := by
  induction ops1 with
  | nil =>
    intro books ops2
    simp only [List.nil_append]
    show applyBookOps books ops2 = _
    show _ = ((applyBookOps books ops2).1, [] ++ (applyBookOps books ops2).2)
    rw [List.nil_append]
  | cons op rest ih =>
    intro books ops2
    show (let r1 := applyBookOp books op
          let r2 := applyBookOps r1.1 (rest ++ ops2)
          (r2.1, r1.2.toList ++ r2.2)) = _
    dsimp only
    rw [ih (applyBookOp books op).1 ops2]
    show _ = ((applyBookOps (applyBookOps books (op :: rest)).1 ops2).1, _)
    show _ = (_, ((applyBookOp books op).2.toList ++
      (applyBookOps (applyBookOp books op).1 rest).2) ++
      (applyBookOps (applyBookOps books (op :: rest)).1 ops2).2)
    rw [List.append_assoc]
    rfl

theorem countCreates_replicate (n : Nat) :
    countCreates (List.replicate n plainCreate) = n := by
  induction n with
  | zero => rfl
  | succ m ih =>
    rw [List.replicate_succ]
    show countCreates (plainCreate :: List.replicate m plainCreate) = m + 1
    unfold countCreates at ih ⊢
    rw [List.countP_cons]
    rw [ih]
    rfl

/-- **C6 (amended).** `next_id` on an empty file returns `"0001"`, and for
any sequence of catalog operations with at most 9999 creates starting
from an empty file — soft-deletes freely interleaved — the assigned ids
are exactly `"0001", "0002", ...` in order, with no gaps and no repeats.
(Past 9999 the 4-byte id field truncates the 5-digit id and ids repeat,
see the counterexample.) -/
theorem claim_C6_amended :
    getNextBookId [] = some strId1 ∧
    (∀ ops : List BookOp, countCreates ops ≤ 9999 →
      (applyBookOps [] ops).2 =
        (List.range' 1 (countCreates ops)).map (fun j => formatNat j 4) ∧
      ((applyBookOps [] ops).2).Nodup) := by
  constructor
  · rfl
  · intro ops hbound
    obtain ⟨hids, _⟩ := applyBookOps_ids ops [] 0 (Or.inl ⟨rfl, rfl⟩) (by omega)
    refine ⟨by simpa using hids, ?_⟩
    rw [show (0 : Nat) + 1 = 1 by rfl] at hids
    rw [hids]
    apply List.Nodup.map_on
    · intro x hx y hy hxy
      have := congrArg parsePyNat hxy
      rw [parsePyNat_formatNat, parsePyNat_formatNat] at this
      simpa using this
    · simp [List.nodup_range']

theorem applyBookOp_wrap (Rb : List BookRec) :
    applyBookOp (Rb ++ [mkBook (formatNat 10000 4) [] [] [] [] 1]) plainCreate =
      ((Rb ++ [mkBook (formatNat 10000 4) [] [] [] [] 1]) ++
        [mkBook (formatNat 1001 4) [] [] [] [] 1], some (formatNat 1001 4)) := by
  have hnextB : getNextBookId
      (Rb ++ [mkBook (formatNat 10000 4) [] [] [] [] 1]) =
      some (formatNat 1001 4) := by
    unfold getNextBookId
    rw [List.getLast?_concat]
    show getNextIdFrom (some (encodeString (formatNat 10000 4) 4)) = _
    decide
  show (match getNextBookId (Rb ++ [mkBook (formatNat 10000 4) [] [] [] [] 1]) with
    | none => (Rb ++ [mkBook (formatNat 10000 4) [] [] [] [] 1], none)
    | some bid => ((Rb ++ [mkBook (formatNat 10000 4) [] [] [] [] 1]) ++
        [mkBook bid [] [] [] [] 1], some bid)) = _
  rw [hnextB]

/-- **C6 (counterexample).** The claim asserts that any number of
successive creates from an empty file yields ids with no gaps or
repeats; but create number 10000 is assigned `"10000"`, whose id field
stores only the first 4 bytes `"1000"`, so create number 10001 is
assigned `"1001"` — a repeat of the id assigned by create number 1001. -/
theorem claim_C6_counterexample :
    ¬ ((applyBookOps [] (List.replicate 10001 plainCreate)).2).Nodup := by
  have hrep : List.replicate 10001 plainCreate =
      List.replicate 9999 plainCreate ++ [plainCreate, plainCreate] := by
    rw [show (10001 : Nat) = 9999 + 2 by rfl, List.replicate_add]
    congr 1
  rw [hrep, applyBookOps_append]
  obtain ⟨hids1, hinv1⟩ := applyBookOps_ids (List.replicate 9999 plainCreate) [] 0
    (Or.inl ⟨rfl, rfl⟩) (by rw [countCreates_replicate]; omega)
  rw [countCreates_replicate] at hids1 hinv1
  generalize hR : applyBookOps [] (List.replicate 9999 plainCreate) = R at hids1 hinv1 ⊢
  obtain ⟨happA, hinvA⟩ := applyBookOp_create R.1 9999 [] [] [] [] 1 hinv1 (by omega)
  have hstepB := applyBookOp_wrap R.1
  have htwo : (applyBookOps R.1 [plainCreate, plainCreate]).2 =
      [formatNat 10000 4, formatNat 1001 4] := by
    show ((applyBookOp R.1 plainCreate).2).toList ++
      (((applyBookOp (applyBookOp R.1 plainCreate).1 plainCreate).2).toList ++ []) = _
    rw [show applyBookOp R.1 plainCreate =
      (R.1 ++ [mkBook (formatNat 10000 4) [] [] [] [] 1],
        some (formatNat 10000 4)) from happA]
    dsimp only
    rw [hstepB]
    rfl
  intro hnd
  rw [hids1, htwo] at hnd
  rw [List.nodup_append] at hnd
  obtain ⟨-, -, hdisj⟩ := hnd
  apply @hdisj (formatNat 1001 4)
  · simp only [List.mem_map]
    refine ⟨1001, ?_, rfl⟩
    rw [List.mem_range'_1]
    omega
  · simp

theorem claim_C6_amended_witness :
    countCreates [plainCreate, plainCreate, plainCreate] ≤ 9999 ∧
    ((applyBookOps [] [plainCreate, plainCreate, plainCreate]).2 =
      (List.range' 1 (countCreates [plainCreate, plainCreate, plainCreate])).map
        (fun j => formatNat j 4) ∧
     ((applyBookOps [] [plainCreate, plainCreate, plainCreate]).2).Nodup) :=
  ⟨by decide,
   claim_C6_amended.2 [plainCreate, plainCreate, plainCreate] (by decide)⟩

/-! ## C3: the quantity invariant -/

instance (books : List BookRec) : Decidable (BooksWF books) := by
  unfold BooksWF; infer_instance

theorem filter_length_set_le {α : Type} (p : α → Bool) :
    ∀ (l : List α) (i : Nat) (x : α), p x = false →
      ((l.set i x).filter p).length ≤ (l.filter p).length := by
  intro l
  induction l with
  | nil =>
    intro i x _
    simp
  | cons a as ih =>
    intro i x hx
    cases i with
    | zero =>
      simp only [List.set_cons_zero, List.filter_cons, hx]
      rw [if_neg (by simp)]
      split
      · simp
      · exact Nat.le_refl _
    | succ j =>
      simp only [List.set_cons_succ, List.filter_cons]
      split
      · simpa using ih j x hx
      · exact ih j x hx

theorem foldl_measure_le {α β : Type} (g : α → Nat) (f : α → β → α)
    (hstep : ∀ acc e, g (f acc e) ≤ g acc) :
    ∀ (es : List β) (acc : α), g (es.foldl f acc) ≤ g acc := by
  intro es
  induction es with
  | nil =>
    intro acc
    exact Nat.le_refl _
  | cons e rest ih =>
    intro acc
    rw [List.foldl_cons]
    exact Nat.le_trans (ih (f acc e)) (hstep acc e)

theorem returnLoansLoop_count_le (dateStr bid : Str) (entries : List (Str × Str))
    (bs : List BorrowRec) :
    getBorrowedQuantity (returnLoansLoop dateStr entries bs).1 bid ≤
      getBorrowedQuantity bs bid := by
  unfold returnLoansLoop
  refine foldl_measure_le
    (fun acc : List BorrowRec × List Str => getBorrowedQuantity acc.1 bid)
    _ ?_ entries (bs, [])
  intro acc e
  dsimp only
  split
  · exact Nat.le_refl _
  · split
    · exact Nat.le_refl _
    · unfold getBorrowedQuantity
      apply filter_length_set_le
      simp [byteB, byteR]

theorem appendLoans_spec (bookId memberId dateStr : Str) :
    ∀ (k : Nat) (borrows : List BorrowRec) (ids : List Str),
      ∃ L : List BorrowRec,
        (appendLoans bookId memberId dateStr borrows ids k).1 = borrows ++ L ∧
        L.length ≤ k ∧ ∀ l ∈ L, l.bookId = encodeString bookId 4 := by
  intro k
  induction k with
  | zero =>
    intro borrows ids
    exact ⟨[], by simp [appendLoans], by simp, by simp⟩
  | succ k ih =>
    intro borrows ids
    simp only [appendLoans]
    cases hnext : getNextBorrowId borrows with
    | none =>
      exact ⟨[], by simp, by simp, by simp⟩
    | some bid =>
      dsimp only
      obtain ⟨L, hres, hlen, hmem⟩ := ih (borrows ++
        [({ id := encodeString bid 4, bookId := encodeString bookId 4,
            memberId := encodeString memberId 4,
            borrowDate := encodeString dateStr 10,
            returnDate := encodeString [] 10,
            status := byteB, deleted := byte0 } : BorrowRec)]) (ids ++ [bid])
      refine
        ⟨({ id := encodeString bid 4, bookId := encodeString bookId 4,
            memberId := encodeString memberId 4,
            borrowDate := encodeString dateStr 10,
            returnDate := encodeString [] 10,
            status := byteB, deleted := byte0 } : BorrowRec) :: L, ?_, ?_, ?_⟩
      · rw [hres, List.append_assoc]
        rfl
      · simpa using hlen
      · intro l hl
        rcases List.mem_cons.mp hl with h | h
        · rw [h]
        · exact hmem l h

theorem getBorrowedQuantity_append (bs L : List BorrowRec) (bid : Str) :
    getBorrowedQuantity (bs ++ L) bid =
      getBorrowedQuantity bs bid + getBorrowedQuantity L bid := by
  unfold getBorrowedQuantity
  rw [List.filter_append, List.length_append]

theorem getBorrowedQuantity_le_length (L : List BorrowRec) (bid : Str) :
    getBorrowedQuantity L bid ≤ L.length :=
  List.length_filter_le _ L

theorem addBorrow_books (st : LibState) (memberId bookId : Str) (qty : Nat)
    (today : PyDate) :
    (addBorrow st memberId bookId qty today).1.books = st.books := by
  unfold addBorrow
  dsimp only
  repeat' split
  all_goals rfl

theorem returnBook_books (st : LibState) (memberId : Str) (choiceIdx cnt : Nat)
    (today : PyDate) :
    (returnBook st memberId choiceIdx cnt today).1.books = st.books := by
  unfold returnBook
  dsimp only
  repeat' split
  all_goals rfl

theorem returnBook_count_le (st : LibState) (bid memberId : Str)
    (choiceIdx cnt : Nat) (today : PyDate) (T : Nat)
    (hle : getBorrowedQuantity st.borrows bid ≤ T) :
    getBorrowedQuantity (returnBook st memberId choiceIdx cnt today).1.borrows bid ≤ T := by
  unfold returnBook
  dsimp only
  repeat' split
  all_goals
    first
      | exact hle
      | exact Nat.le_trans (returnLoansLoop_count_le _ _ _ _) hle

theorem addBorrow_count_le (st : LibState) (b : BookRec) (memberId bookId : Str)
    (qty : Nat) (today : PyDate)
    (hwf : BooksWF st.books)
    (huniq : ∀ b' ∈ st.books, b'.deleted = byte0 →
      decodeStr b'.id = decodeStr b.id → b' = b)
    (hle : getBorrowedQuantity st.borrows (decodeStr b.id) ≤ bookTotalQuantity b) :
    getBorrowedQuantity (addBorrow st memberId bookId qty today).1.borrows
      (decodeStr b.id) ≤ bookTotalQuantity b := by
  unfold addBorrow
  dsimp only
  split
  · exact hle
  · split
    · exact hle
    · split
      · exact hle
      case _ m hms e hfind =>
        split
        · exact hle
        case _ hq =>
          have hmem := List.mem_of_find?_eq_some hfind
          have hebk : e.bookId = bookId := by
            have heq := List.find?_some hfind
            simpa using heq
          unfold getAvailableBooksForBorrow at hmem
          rw [List.mem_filterMap] at hmem
          obtain ⟨b', hb'mem, hb'f⟩ := hmem
          rw [checkAndBan_books] at hb'mem
          dsimp only at hb'f
          rw [checkAndBan_borrows] at hb'f
          revert hb'f
          split
          · split
            · intro hb'f
              case _ hdel hpos =>
                simp only [Option.some.injEq] at hb'f
                subst hb'f
                dsimp only at hebk hq
                obtain ⟨L, hLres, hLlen, hLmem⟩ :=
                  appendLoans_spec bookId memberId (renderDate today) qty
                    (checkAndBanOverdueMembers st today).1.borrows []
                show getBorrowedQuantity
                  (appendLoans bookId memberId (renderDate today)
                    (checkAndBanOverdueMembers st today).1.borrows [] qty).1
                  (decodeStr b.id) ≤ bookTotalQuantity b
                rw [hLres, checkAndBan_borrows, getBorrowedQuantity_append]
                by_cases hmatch : decodeStr (encodeString bookId 4) = decodeStr b.id
                · have hstab : decodeStr (encodeString bookId 4) = bookId := by
                    rw [← hebk]
                    exact decodeStr_encodeString_stable b'.id 4
                      (Nat.le_of_eq (hwf b' hb'mem))
                  have hbid : bookId = decodeStr b.id := hstab ▸ hmatch
                  have hdel' : b'.deleted = byte0 := by simpa using hdel
                  have hb'b : b' = b := huniq b' hb'mem hdel' (hebk.trans hbid)
                  rw [hb'b] at hq
                  push_neg at hq
                  have hLcount := getBorrowedQuantity_le_length L (decodeStr b.id)
                  omega
                · have hzero : getBorrowedQuantity L (decodeStr b.id) = 0 := by
                    unfold getBorrowedQuantity
                    have : L.filter (fun l => l.deleted == byte0 && l.status == byteB &&
                        decodeStr l.bookId == decodeStr b.id) = [] := by
                      rw [List.filter_eq_nil_iff]
                      intro l hl
                      simp [hLmem l hl, hmatch]
                    rw [this]
                    rfl
                  rw [hzero]
                  omega
            · intro hb'f
              exact absurd hb'f (by simp)
          · intro hb'f
            exact absurd hb'f (by simp)

theorem applyPolicyOp_books (st : LibState) (op : PolicyOp) :
    (applyPolicyOp st op).books = st.books := by
  cases op with
  | borrow m bk q d => exact addBorrow_books st m bk q d
  | ret m c n d => exact returnBook_books st m c n d

theorem applyPolicyOp_count_le (st : LibState) (b : BookRec) (op : PolicyOp)
    (hwf : BooksWF st.books)
    (huniq : ∀ b' ∈ st.books, b'.deleted = byte0 →
      decodeStr b'.id = decodeStr b.id → b' = b)
    (hle : getBorrowedQuantity st.borrows (decodeStr b.id) ≤ bookTotalQuantity b) :
    getBorrowedQuantity (applyPolicyOp st op).borrows (decodeStr b.id) ≤
      bookTotalQuantity b := by
  cases op with
  | borrow m bk q d => exact addBorrow_count_le st b m bk q d hwf huniq hle
  | ret m c n d => exact returnBook_count_le st (decodeStr b.id) m c n d _ hle

theorem applyPolicyOps_count_le :
    ∀ (ops : List PolicyOp) (st : LibState) (b : BookRec),
      BooksWF st.books →
      (∀ b' ∈ st.books, b'.deleted = byte0 →
        decodeStr b'.id = decodeStr b.id → b' = b) →
      getBorrowedQuantity st.borrows (decodeStr b.id) ≤ bookTotalQuantity b →
      getBorrowedQuantity (applyPolicyOps st ops).borrows (decodeStr b.id) ≤
        bookTotalQuantity b := by
  intro ops
  induction ops with
  | nil =>
    intro st b _ _ hle
    exact hle
  | cons op rest ih =>
    intro st b hwf huniq hle
    show getBorrowedQuantity (applyPolicyOps (applyPolicyOp st op) rest).borrows
      (decodeStr b.id) ≤ bookTotalQuantity b
    apply ih
    · rw [applyPolicyOp_books]
      exact hwf
    · rw [applyPolicyOp_books]
      exact huniq
    · exact applyPolicyOp_count_le st b op hwf huniq hle

set_option maxRecDepth 2048 in
/-- **C3.** The quantity invariant: for every catalog record `b` (with a
well-formed 4-byte id field, no other non-deleted record sharing its
decoded id, and no open loans on it initially) and every sequence of
borrow and return operations — each attempt running the full
`add_borrow` / `return_book` pipeline including the overdue sweep — the
derived available count satisfies `0 ≤ available(b) ≤ b.quantity` in the
resulting state; since the sequence is arbitrary, the bound holds at
every intermediate step as well. -/
theorem claim_C3 (st : LibState) (b : BookRec) (ops : List PolicyOp)
    (hwf : BooksWF st.books)
    (huniq : ∀ b' ∈ st.books, b'.deleted = byte0 →
      decodeStr b'.id = decodeStr b.id → b' = b)
    (h0 : getBorrowedQuantity st.borrows (decodeStr b.id) = 0) :
    0 ≤ availableQuantity (applyPolicyOps st ops) b ∧
    availableQuantity (applyPolicyOps st ops) b ≤ (bookTotalQuantity b : Int) := by
  have hc := applyPolicyOps_count_le ops st b hwf huniq (by omega)
  unfold availableQuantity
  constructor <;> omega

set_option maxRecDepth 4000 in
/-- Witness for C3: the C1 scenario book (quantity 2) under the sequence
borrow–borrow–return–borrow stays within bounds. -/
theorem claim_C3_witness :
    BooksWF scenC1State.books ∧
    (∀ b' ∈ scenC1State.books, b'.deleted = byte0 →
      decodeStr b'.id = decodeStr (mkBook strId1 [84] [65] [] [50, 48, 50, 48] 2).id →
      b' = mkBook strId1 [84] [65] [] [50, 48, 50, 48] 2) ∧
    getBorrowedQuantity scenC1State.borrows
      (decodeStr (mkBook strId1 [84] [65] [] [50, 48, 50, 48] 2).id) = 0 ∧
    (0 ≤ availableQuantity
        (applyPolicyOps scenC1State
          [.borrow strId1 strId1 1 scenC1Today, .borrow strId2 strId1 1 scenC1Today,
           .ret strId1 0 1 scenC1Today, .borrow strId3 strId1 1 scenC1Today])
        (mkBook strId1 [84] [65] [] [50, 48, 50, 48] 2) ∧
      availableQuantity
        (applyPolicyOps scenC1State
          [.borrow strId1 strId1 1 scenC1Today, .borrow strId2 strId1 1 scenC1Today,
           .ret strId1 0 1 scenC1Today, .borrow strId3 strId1 1 scenC1Today])
        (mkBook strId1 [84] [65] [] [50, 48, 50, 48] 2) ≤
        (bookTotalQuantity (mkBook strId1 [84] [65] [] [50, 48, 50, 48] 2) : Int)) :=
  ⟨by decide, by decide, by decide,
   claim_C3 scenC1State (mkBook strId1 [84] [65] [] [50, 48, 50, 48] 2)
     [.borrow strId1 strId1 1 scenC1Today, .borrow strId2 strId1 1 scenC1Today,
      .ret strId1 0 1 scenC1Today, .borrow strId3 strId1 1 scenC1Today]
     (by decide) (by decide) (by decide)⟩

end LibSys
